import Mathlib

/-!
# pocketutils: the `discover` scanner and API server, and the `cluster` archiver

A shallow embedding of `cmd/discover/main.go` and `cmd/cluster/main.go`.

* Byte slices (`net.IP`, `net.IPMask`, file contents, the Go strings of the archiver) are lists
  of natural numbers below 256; the nil slice is the empty list.
* The functions of Go's standard library that the programs call (`net`, `strings`, `strconv`,
  `encoding/binary`, `encoding/json`, `unicode/utf8`, `net/http`) are modelled after their
  documented behaviour; what depends on the host (its interfaces, which connects succeed, the
  order in which goroutines reach the mutex, `url.Parse`) is an explicit parameter.
* A loop the source does not bound carries a fuel argument and yields `none` when it runs out.
-/

namespace Discover

/-! ## Configuration constants (`main.go`, lines 18-26) -/

def DefaultScanPort : Int := 3000

def DefaultAPIPort : Int := 7370

def MaxAPIRequests : Int := 3

/-! ## Package `net`: addresses, masks, networks -/

/-- Go `net.IP`: a slice of bytes; the nil slice is the empty list. -/
abbrev IP := List Nat

/-- Go `net.IPMask`. -/
abbrev IPMask := List Nat

/-- Go `net.IPNet`. -/
structure IPNet where
  IP : Discover.IP
  Mask : IPMask
deriving DecidableEq, Repr

/-- The twelve bytes that precede an IPv4 address in its 16-byte form. -/
def v4InV6Prefix : IP := [0, 0, 0, 0, 0, 0, 0, 0, 0, 0, 0xff, 0xff]

def allFF (b : List Nat) : Bool := b.all (fun c => c == 0xff)

def isZeros (p : List Nat) : Bool := p.all (fun c => c == 0)

/-- Go `IP.To4`; `none` is the nil result. -/
def To4 (ip : IP) : Option IP :=
  if ip.length = 4 then some ip
  else if ip.length = 16 ∧ isZeros (ip.take 10) = true ∧ ip.getD 10 0 = 0xff ∧
      ip.getD 11 0 = 0xff then
    some (ip.drop 12)
  else none

/-- Go `IP.Mask`: the two length adjustments, then the bytewise AND (nil on a length mismatch). -/
def Mask (ip : IP) (mask : IPMask) : IP :=
  let mask1 :=
    if mask.length = 16 ∧ ip.length = 4 ∧ allFF (mask.take 12) = true then mask.drop 12 else mask
  let ip1 :=
    if mask1.length = 4 ∧ ip.length = 16 ∧ ip.take 12 = v4InV6Prefix then ip.drop 12 else ip
  if ip1.length ≠ mask1.length then [] else List.zipWith (fun x y => x &&& y) ip1 mask1

/-- The byte loop of `net.CIDRMask`: `l` bytes remain to be written, `n` one-bits remain. -/
def cidrMaskLoop : Nat → Nat → IPMask
  | 0, _ => []
  | l + 1, n =>
    if n ≥ 8 then 0xff :: cidrMaskLoop l (n - 8)
    else ((0xff >>> n) ^^^ 0xff) :: cidrMaskLoop l 0

/-- Go `net.CIDRMask(ones, bits)`. -/
def CIDRMask (ones bits : Nat) : IPMask :=
  if bits ≠ 32 ∧ bits ≠ 128 then []
  else if ones > bits then []
  else cidrMaskLoop (bits / 8) ones

/-- Go `net.networkNumberAndMask`; the pair of nil slices is `([], [])`. -/
def networkNumberAndMask (n : IPNet) : IP × IPMask :=
  let r : Option IP :=
    match To4 n.IP with
    | some ip => some ip
    | none => if n.IP.length ≠ 16 then none else some n.IP
  match r with
  | none => ([], [])
  | some ip =>
    if n.Mask.length = 4 then
      if ip.length ≠ 4 then ([], []) else (ip, n.Mask)
    else if n.Mask.length = 16 then
      if ip.length = 4 then (ip, n.Mask.drop 12) else (ip, n.Mask)
    else ([], [])

/-- Go `IPNet.Contains`. -/
def Contains (n : IPNet) (ip : IP) : Bool :=
  let (nn, m) := networkNumberAndMask n
  let ip1 := match To4 ip with
    | some x => x
    | none => ip
  let l := ip1.length
  if l ≠ nn.length then false
  else (List.range l).all (fun i => nn.getD i 0 &&& m.getD i 0 == ip1.getD i 0 &&& m.getD i 0)

/-- What `net.ParseCIDR` returns for the text `a.b.c.d/n` of an IPv4 address with prefix length
`n`: the address in 16-byte form, and the network whose mask is `CIDRMask(n, 32)` and whose base
is the masked address. -/
def parsedCIDR4 (a b c d n : Nat) : IP × IPNet :=
  let m := CIDRMask n 32
  let addr16 : IP := v4InV6Prefix ++ [a, b, c, d]
  (addr16, { IP := Mask addr16 m, Mask := m })

/-- The four bytes, most significant first, of a 32-bit address given as a number. -/
def ofNat32 (n : Nat) : IP := [n / 2 ^ 24 % 256, n / 2 ^ 16 % 256, n / 2 ^ 8 % 256, n % 256]

/-- The number a byte slice denotes, most significant byte first. -/
def toNat32 (ip : IP) : Nat := ip.foldl (fun acc b => acc * 256 + b) 0

/-! ## `inc` and the enumeration loop of `runDiscoveryScan` -/

/-- The loop of `inc` with `j + 1` as counter: `ip[j]++` on a byte, stop when it did not wrap. -/
def incAt (ip : IP) : Nat → IP
  | 0 => ip
  | j + 1 =>
    let ip1 := ip.set j ((ip.getD j 0 + 1) % 256)
    if ip1.getD j 0 > 0 then ip1 else incAt ip1 j

/-- The source's `inc` (lines 193-200). -/
def inc (ip : IP) : IP := incAt ip ip.length

/-- The loop `for ip := ...; ipnet.Contains(ip); inc(ip)` (lines 81-100), started at `ip`: the
copies handed to the probe goroutines, in launch order; `none` when the fuel runs out before
the condition fails. -/
def scanLoop (ipnet : IPNet) : Nat → IP → Option (List IP)
  | 0, _ => none
  | fuel + 1, ip =>
    if Contains ipnet ip then (scanLoop ipnet fuel (inc ip)).map (fun r => ip :: r)
    else some []

/-- The value of the loop variable after `n` passes through `inc`. -/
def incIter (n : Nat) (ip : IP) : IP := Nat.iterate inc n ip

/-! ## The host, and `localSubnet` -/

/-- Go `net.FlagUp` (`1 << 0`). -/
def FlagUp : Nat := 1

/-- Go `net.FlagLoopback` (`1 << 2`). -/
def FlagLoopback : Nat := 4

/-- A `net.Interface` as far as `localSubnet` looks at it: its flag bits, and what `Addrs()`
returns, the texts `addr.String()` of its addresses or an error. -/
structure Interface where
  Flags : Nat
  Addrs : Except String (List String)

/-- What the program asks of its host and of the standard library's parsers and printers:
`net.Interfaces()`, `net.ParseCIDR` (`none` is an error), whether
`net.DialTimeout("tcp", addr, ScanTimeout)` succeeds, and the text `IP.String` prints for an
address that has no 4-byte form. -/
structure Host where
  Interfaces : Except String (List Interface)
  ParseCIDR : String → Option (IP × IPNet)
  Dial : String → Bool
  IPv6String : IP → String

/-- The inner loop of `localSubnet` (lines 218-223): the first address that parses as a CIDR
and whose `To4()` is not nil. -/
def firstIPv4 (parse : String → Option (IP × IPNet)) : List String → Option (IP × IPNet)
  | [] => none
  | addr :: rest =>
    match parse addr with
    | some (ip, ipnet) => if (To4 ip).isSome then some (ip, ipnet) else firstIPv4 parse rest
    | none => firstIPv4 parse rest

/-- The outer loop of `localSubnet` (lines 208-226). -/
def localSubnetLoop (parse : String → Option (IP × IPNet)) :
    List Interface → Except String (IP × IPNet)
  | [] => .error "no active IPv4 interface found"
  | iface :: rest =>
    if iface.Flags &&& FlagUp = 0 ∨ iface.Flags &&& FlagLoopback ≠ 0 then
      localSubnetLoop parse rest
    else
      match iface.Addrs with
      | .error _ => localSubnetLoop parse rest
      | .ok addrs =>
        match firstIPv4 parse addrs with
        | some r => .ok r
        | none => localSubnetLoop parse rest

/-- The source's `localSubnet` (lines 202-227). -/
def localSubnet (h : Host) : Except String (IP × IPNet) :=
  match h.Interfaces with
  | .error e => .error e
  | .ok ifaces => localSubnetLoop h.ParseCIDR ifaces

/-! ## Printing an address, probing, and `runDiscoveryScan` -/

/-- Go `net.hexString`: two lower-case hex digits per byte. -/
def hexString (b : List Nat) : String :=
  ⟨b.flatMap (fun x => [Nat.digitChar (x >>> 4), Nat.digitChar (x &&& 0xf)])⟩

/-- Dotted decimal of four bytes. -/
def dotted (p : IP) : String :=
  toString (p.getD 0 0) ++ "." ++ toString (p.getD 1 0) ++ "." ++ toString (p.getD 2 0) ++ "." ++
    toString (p.getD 3 0)

/-- Go `IP.String`. -/
def ipString (v6 : IP → String) (ip : IP) : String :=
  if ip.length = 0 then "<nil>"
  else if ip.length ≠ 4 ∧ ip.length ≠ 16 then "?" ++ hexString ip
  else
    match To4 ip with
    | some p4 => if p4.length = 4 then dotted p4 else v6 ip
    | none => v6 ip

/-- The text `fmt.Sprintf("%s:%d", ip, port)` of line 88. -/
def Sprintf (v6 : IP → String) (ip : IP) (port : Int) : String :=
  ipString v6 ip ++ ":" ++ toString port

/-- One probe goroutine (lines 85-99) run on the shared slice: dial, return on an error,
otherwise append the address under the mutex. -/
def probe (h : Host) (port : Int) (foundIPs : List String) (ip : IP) : List String :=
  let addr := Sprintf h.IPv6String ip port
  if h.Dial addr then foundIPs ++ [addr] else foundIPs

/-- What a call of `runDiscoveryScan` did: the error it printed, if any, the addresses it
dialled in launch order, and the slice it returned. -/
structure ScanReport where
  reported : Option String
  probes : List String
  found : List String
deriving DecidableEq, Repr

/-- The source's `runDiscoveryScan` (lines 68-111). The mutex makes the bodies of the probes that
connected run one after another, in some order `sched targets` of the launched probes; the
`WaitGroup` makes the function return after all of them. -/
def runDiscoveryScan (h : Host) (sched : List IP → List IP) (fuel : Nat) (port : Int) :
    Option ScanReport :=
  match localSubnet h with
  | .error e => some { reported := some e, probes := [], found := [] }
  | .ok (ip, ipnet) =>
    match scanLoop ipnet fuel (Mask ip ipnet.Mask) with
    | none => none
    | some targets =>
      some { reported := none
             probes := targets.map (fun t => Sprintf h.IPv6String t port)
             found := (sched targets).foldl (probe h port) [] }

/-! ## The API server: `startAPIServer` and its `/getIP` handler -/

/-- An `http.ResponseWriter`: the header map, the status line once written together with the
headers sent with it, and the body written so far. -/
structure ResponseWriter where
  header : List (String × String)
  wrote : Option (Nat × List (String × String))
  body : String
deriving DecidableEq, Repr

/-- The writer a handler is called with. -/
def newResponseWriter : ResponseWriter := { header := [], wrote := none, body := "" }

/-- Go `w.Header().Set(key, value)`. -/
def HeaderSet (w : ResponseWriter) (key value : String) : ResponseWriter :=
  { w with header := w.header.filter (fun kv => kv.1 != key) ++ [(key, value)] }

/-- Go `w.WriteHeader(code)`: the first call sends the status line and the headers. -/
def WriteHeader (w : ResponseWriter) (code : Nat) : ResponseWriter :=
  match w.wrote with
  | some _ => w
  | none => { w with wrote := some (code, w.header) }

/-- Go `fmt.Fprint(w, s)`: a write sends status 200 first when no status was sent. -/
def Fprint (w : ResponseWriter) (s : String) : ResponseWriter :=
  let w1 := WriteHeader w 200
  { w1 with body := w1.body ++ s }

/-- What the client receives once the handler has returned. -/
structure Response where
  status : Nat
  header : List (String × String)
  body : String
deriving DecidableEq, Repr

/-- The server finishes a request: status 200 is sent if the handler sent none. -/
def finish (w : ResponseWriter) : Response :=
  match (WriteHeader w 200).wrote with
  | some (code, hdr) => { status := code, header := hdr, body := w.body }
  | none => { status := 200, header := w.header, body := w.body }

/-- The state `startAPIServer` shares between requests: the global `discoveredIPs`, the
`int32` counter `requestCount`, and the number of goroutines started at line 160 that call
`cancel()` after `ShutdownDelay`. -/
structure Server where
  discoveredIPs : List String
  requestCount : Int
  cancels : Nat
deriving DecidableEq, Repr

/-- The server as `startAPIServer` creates it. -/
def newServer (discoveredIPs : List String) : Server :=
  { discoveredIPs := discoveredIPs, requestCount := 0, cancels := 0 }

/-- Go `atomic.AddInt32`: two's complement addition on 32 bits. -/
def AddInt32 (x delta : Int) : Int := (x + delta + 2 ^ 31) % 2 ^ 32 - 2 ^ 31

/-- The loop of lines 150-155, at index `i` of the range. -/
def writeEntries (w : ResponseWriter) : Nat → List String → ResponseWriter
  | _, [] => w
  | i, ip :: rest =>
    let w1 := if i > 0 then Fprint w "," else w
    writeEntries (Fprint w1 ("\"" ++ ip ++ "\"")) (i + 1) rest

/-- The handler registered for `/getIP` (lines 142-165). -/
def getIPHandler (s : Server) (w : ResponseWriter) : Server × ResponseWriter :=
  let count := AddInt32 s.requestCount 1
  let w := HeaderSet w "Content-Type" "application/json"
  let w := Fprint w "["
  let w := writeEntries w 0 s.discoveredIPs
  let w := Fprint w "]"
  let cancels := if count ≥ MaxAPIRequests then s.cancels + 1 else s.cancels
  ({ s with requestCount := count, cancels := cancels }, w)

/-- The middleware `corsHandler` (lines 126-139) around `next`, for a request with the given
method. -/
def corsHandler (next : Server → ResponseWriter → Server × ResponseWriter)
    (s : Server) (w : ResponseWriter) (method : String) : Server × ResponseWriter :=
  let w := HeaderSet w "Access-Control-Allow-Origin" "*"
  let w := HeaderSet w "Access-Control-Allow-Methods" "GET, OPTIONS"
  let w := HeaderSet w "Access-Control-Allow-Headers" "Content-Type"
  if method = "OPTIONS" then (s, WriteHeader w 200)
  else next s w

/-- One request to `/getIP`: the new state and the response. -/
def serveGetIP (s : Server) (method : String) : Server × Response :=
  let r := corsHandler getIPHandler s newResponseWriter method
  (r.1, finish r.2)

/-- Requests to `/getIP` handled one after another: the final state and the responses. -/
def serveAll (s : Server) : List String → Server × List Response
  | [] => (s, [])
  | m :: rest =>
    let r := serveGetIP s m
    let q := serveAll r.1 rest
    (q.1, r.2 :: q.2)

/-- The number of requests of a sequence that are not preflights. -/
def countGets (reqs : List String) : Nat := (reqs.filter (fun m => m != "OPTIONS")).length

/-! ### Reading a JSON array of strings (RFC 8259), used to state what the body decodes to -/

/-- The character a two-character escape stands for; `\u` escapes are not read. -/
def unescape (c : Char) : Option Char :=
  if c = '"' then some '"'
  else if c = '\\' then some '\\'
  else if c = '/' then some '/'
  else if c = 'b' then some (Char.ofNat 8)
  else if c = 'f' then some (Char.ofNat 12)
  else if c = 'n' then some '\n'
  else if c = 'r' then some '\r'
  else if c = 't' then some '\t'
  else none

/-- A JSON string after its opening quote: its characters and what follows the closing quote.
Control characters must be escaped. -/
def jsonStringTail : List Char → Option (List Char × List Char)
  | [] => none
  | c :: rest =>
    if c = '"' then some ([], rest)
    else if c = '\\' then
      match rest with
      | [] => none
      | e :: rest2 =>
        match unescape e with
        | some d => (jsonStringTail rest2).map (fun r => (d :: r.1, r.2))
        | none => none
    else if c.toNat < 0x20 then none
    else (jsonStringTail rest).map (fun r => (c :: r.1, r.2))

/-- After an element of the array: the closing bracket at the end of the text, or a comma and
another string. -/
def jsonMore : Nat → List Char → Option (List String)
  | 0, _ => none
  | fuel + 1, cs =>
    match cs with
    | [] => none
    | c :: rest =>
      if c = ']' then (if rest = [] then some [] else none)
      else if c = ',' then
        match rest with
        | [] => none
        | q :: rest2 =>
          if q = '"' then
            match jsonStringTail rest2 with
            | some (s, rest3) => (jsonMore fuel rest3).map (fun l => String.mk s :: l)
            | none => none
          else none
      else none

/-- A decoder of JSON texts that are an array of strings written without insignificant
whitespace and without `\u` escapes; `none` on any other text. -/
def decodeJSONStrings (body : String) : Option (List String) :=
  match body.data with
  | [] => none
  | c :: rest =>
    if c = '[' then
      match rest with
      | [] => none
      | q :: rest2 =>
        if q = ']' then (if rest2 = [] then some [] else none)
        else if q = '"' then
          match jsonStringTail rest2 with
          | some (s, rest3) => (jsonMore (rest3.length + 1) rest3).map (fun l => String.mk s :: l)
          | none => none
        else none
    else none

/-! ## `main`: the command line, then the scan, then the server -/

/-- Go `strings.Trim(s, cutset)`: the leading and the trailing characters of `s` that are in
`cutset` are removed. -/
def Trim (s cutset : String) : String :=
  ⟨((s.data.dropWhile (fun c => cutset.data.contains c)).reverse.dropWhile
      (fun c => cutset.data.contains c)).reverse⟩

/-- Go `strings.HasPrefix`. -/
def HasPrefix (s p : String) : Bool := p.data.isPrefixOf s.data

/-- The value of a run of decimal digits. -/
def digitsValue (ds : List Char) : Nat := ds.foldl (fun n c => n * 10 + (c.toNat - 48)) 0

/-- Go `strconv.Atoi` where `int` has 64 bits: an optional sign, then one or more decimal
digits, and a value that fits; `none` is an error. -/
def Atoi (s : String) : Option Int :=
  let r : Bool × List Char :=
    match s.data with
    | [] => (false, [])
    | c :: rest => if c = '-' then (true, rest) else if c = '+' then (false, rest) else (false, c :: rest)
  if r.2 = [] ∨ r.2.all Char.isDigit = false then none
  else
    let v : Int := if r.1 then - (digitsValue r.2 : Int) else (digitsValue r.2 : Int)
    if v < - 2 ^ 63 ∨ v > 2 ^ 63 - 1 then none else some v

/-- A parsed `url.URL` as far as `main` looks at it: `u.Query().Get(key)`, the first value of
the key in the query, or the empty string when the key is absent. -/
structure URL where
  QueryGet : String → String

/-- The three variables `main` sets from its argument. -/
structure Config where
  scanPort : Int
  apiPort : Int
  serveAPI : Bool
deriving DecidableEq, Repr

/-- Lines 32-57 of `main`: the configuration read from `os.Args`; `urlParse` is `url.Parse`,
with `none` for an error. -/
def parseArgs (urlParse : String → Option URL) (args : List String) : Config :=
  let dflt : Config := { scanPort := DefaultScanPort, apiPort := DefaultAPIPort, serveAPI := false }
  match args with
  | _ :: a1 :: _ =>
    let arg := Trim a1 "\"'"
    if HasPrefix arg "discover://" then
      match urlParse arg with
      | some u =>
        let p := u.QueryGet "port"
        let scanPort :=
          if p ≠ "" then
            match Atoi p with
            | some val => val
            | none => dflt.scanPort
          else dflt.scanPort
        let serveAPI := if u.QueryGet "serve" = "true" then true else dflt.serveAPI
        let ap := u.QueryGet "apiPort"
        let apiPort :=
          if ap ≠ "" then
            match Atoi ap with
            | some val => val
            | none => dflt.apiPort
          else dflt.apiPort
        { scanPort := scanPort, apiPort := apiPort, serveAPI := serveAPI }
      | none => dflt
    else dflt
  | _ => dflt

/-- What a run of the program did: the scan, the call of `startAPIServer` if there was one (the
port it was given and the server it starts, which answers from the global `discoveredIPs` that
line 60 has set to the result of the scan), and the exit status of the process. -/
structure Run where
  scan : ScanReport
  served : Option (Int × Server)
  exitStatus : Nat
deriving DecidableEq, Repr

/-- Lines 59-66 of `main`, from a configuration: the scan, whose result is stored in
`discoveredIPs`, then the server if requested; `main` then returns, which ends the process with
status 0 (the program never calls `os.Exit`). -/
def mainFrom (h : Host) (sched : List IP → List IP) (fuel : Nat) (cfg : Config) : Option Run :=
  match runDiscoveryScan h sched fuel cfg.scanPort with
  | none => none
  | some r =>
    let discoveredIPs := r.found
    some { scan := r
           served := if cfg.serveAPI then some (cfg.apiPort, newServer discoveredIPs) else none
           exitStatus := 0 }

/-- The source's `main` (lines 31-66). -/
def main (h : Host) (sched : List IP → List IP) (fuel : Nat)
    (urlParse : String → Option URL) (args : List String) : Option Run :=
  mainFrom h sched fuel (parseArgs urlParse args)

end Discover

namespace Cluster

/-! ## The `cluster` archiver (`cmd/cluster/main.go`) -/

/-- The 32-bit separator. -/
def SEPARATOR : Nat := 0xFFFFFFFF

/-- The source's `FileMetadata`; `Path` is a Go string, a sequence of bytes, `Size` an
`int64`. -/
structure FileMetadata where
  Path : List Nat
  Size : Int
deriving DecidableEq, Repr

/-- A regular file as `packDirectory` meets it: its path relative to the directory, the size
`filepath.Walk` reports for it, and the bytes `io.Copy` later reads from it. -/
structure DirFile where
  Path : List Nat
  Size : Int
  Content : List Nat
deriving DecidableEq, Repr

/-- The entry `packDirectory` records for a file (lines 64-67). -/
def metadataOf (f : DirFile) : FileMetadata := { Path := f.Path, Size := f.Size }

/-- Go `binary.Write(w, binary.LittleEndian, v)` for a `uint32`. -/
def putUint32 (v : Nat) : List Nat :=
  [v % 256, v / 256 % 256, v / 65536 % 256, v / 16777216 % 256]

/-- Go `binary.Read(r, binary.LittleEndian, &v)` for a `uint32`: the value and the rest of the
input, `none` when fewer than four bytes are left. -/
def readUint32 : List Nat → Option (Nat × List Nat)
  | b0 :: b1 :: b2 :: b3 :: rest => some (b0 + b1 * 256 + b2 * 65536 + b3 * 16777216, rest)
  | _ => none

/-- The source's `packDirectory` (lines 55-125), all file operations succeeding: the bytes
written to the `.cluster` file for the regular files of the directory in walk order. `marshal`
is `json.Marshal` at `[]FileMetadata`. -/
def packDirectory (marshal : List FileMetadata → List Nat) (dir : List DirFile) : List Nat :=
  let files : List FileMetadata := dir.map metadataOf
  let metadataJSON := marshal files
  let metadataSize := metadataJSON.length % 2 ^ 32
  putUint32 metadataSize ++ metadataJSON ++ putUint32 SEPARATOR ++
    (dir.map (fun f => f.Content)).flatten

/-- The errors `unpackCluster` returns. -/
inductive UnpackError where
  | read : UnpackError
  | json : UnpackError
  | invalidSeparator (got : Nat) : UnpackError
deriving DecidableEq, Repr

/-- The extraction loop of `unpackCluster` (lines 167-188): `io.CopyN` takes `file.Size` bytes
for each entry (none for a size that is not positive) and fails when fewer are left. The result
lists the files written, path and content, in order, and the input that remains. -/
def extract : List FileMetadata → List Nat → Except UnpackError (List (List Nat × List Nat) × List Nat)
  | [], input => .ok ([], input)
  | file :: rest, input =>
    let n := file.Size.toNat
    if input.length < n then .error .read
    else
      match extract rest (input.drop n) with
      | .error e => .error e
      | .ok (out, left) => .ok ((file.Path, input.take n) :: out, left)

/-- The source's `unpackCluster` (lines 127-193), the file operations on the output succeeding.
`unmarshal` is `json.Unmarshal` at `[]FileMetadata`, `none` for an error. -/
def unpackCluster (unmarshal : List Nat → Option (List FileMetadata)) (blob : List Nat) :
    Except UnpackError (List (List Nat × List Nat) × List Nat) :=
  match readUint32 blob with
  | none => .error .read
  | some (metadataSize, r1) =>
    if r1.length < metadataSize then .error .read
    else
      match unmarshal (r1.take metadataSize) with
      | none => .error .json
      | some files =>
        match readUint32 (r1.drop metadataSize) with
        | none => .error .read
        | some (sep, r2) =>
          if sep ≠ SEPARATOR then .error (.invalidSeparator sep)
          else extract files r2

/-! ### `unicode/utf8` and `encoding/json` -/

/-- The codes of the characters of an ASCII text. -/
def ascii (s : String) : List Nat := s.data.map Char.toNat

/-- Go `utf8.RuneError`. -/
def RuneError : Nat := 0xFFFD

/-- A continuation byte. -/
def isCont (b : Nat) : Bool := 0x80 ≤ b && b ≤ 0xBF

/-- Go `utf8.DecodeRuneInString`: the rune at the start of `s` and its width in bytes;
`(RuneError, 1)` for an encoding that is not valid, `(RuneError, 0)` for the empty string. -/
def decodeRune (s : List Nat) : Nat × Nat :=
  match s with
  | [] => (RuneError, 0)
  | s0 :: t =>
    if s0 < 0x80 then (s0, 1)
    else if s0 < 0xC2 then (RuneError, 1)
    else if s0 < 0xE0 then
      match t with
      | s1 :: _ => if isCont s1 then ((s0 &&& 0x1F) <<< 6 ||| (s1 &&& 0x3F), 2) else (RuneError, 1)
      | _ => (RuneError, 1)
    else if s0 < 0xF0 then
      let lo := if s0 = 0xE0 then 0xA0 else 0x80
      let hi := if s0 = 0xED then 0x9F else 0xBF
      match t with
      | s1 :: s2 :: _ =>
        if lo ≤ s1 ∧ s1 ≤ hi ∧ isCont s2 = true then
          ((s0 &&& 0x0F) <<< 12 ||| (s1 &&& 0x3F) <<< 6 ||| (s2 &&& 0x3F), 3)
        else (RuneError, 1)
      | _ => (RuneError, 1)
    else if s0 < 0xF5 then
      let lo := if s0 = 0xF0 then 0x90 else 0x80
      let hi := if s0 = 0xF4 then 0x8F else 0xBF
      match t with
      | s1 :: s2 :: s3 :: _ =>
        if lo ≤ s1 ∧ s1 ≤ hi ∧ isCont s2 = true ∧ isCont s3 = true then
          ((s0 &&& 0x07) <<< 18 ||| (s1 &&& 0x3F) <<< 12 ||| (s2 &&& 0x3F) <<< 6 ||| (s3 &&& 0x3F), 4)
        else (RuneError, 1)
      | _ => (RuneError, 1)
    else (RuneError, 1)

/-- The table `htmlSafeSet` of `encoding/json`: the ASCII bytes written as they are. -/
def htmlSafe (b : Nat) : Bool :=
  0x20 ≤ b && b < 0x80 && b != 0x22 && b != 0x26 && b != 0x3C && b != 0x3E && b != 0x5C

/-- The code of the lower-case hex digit of `n`. -/
def hexDigit (n : Nat) : Nat := (Nat.digitChar n).toNat

/-- Go `utf8.AppendRune` for a rune below `0x10000`. -/
def encodeRune (c : Nat) : List Nat :=
  if c < 0x80 then [c]
  else if c < 0x800 then [0xC0 ||| c >>> 6, 0x80 ||| c &&& 0x3F]
  else [0xE0 ||| c >>> 12, 0x80 ||| (c >>> 6) &&& 0x3F, 0x80 ||| c &&& 0x3F]

/-- What `appendString` of `encoding/json` writes for an ASCII byte (with HTML escaping, as
`json.Marshal` sets it): the byte itself when the table allows, a backslash before a backslash
or a double quote, the short escapes of backspace, form feed, line feed, carriage return and
tab, and the escape `\u00XX` for the other control characters and for `<`, `>` and `&`. -/
def escapeASCII (b : Nat) : List Nat :=
  if htmlSafe b then [b]
  else if b = 0x5C ∨ b = 0x22 then [0x5C, b]
  else if b = 0x08 then ascii "\\b"
  else if b = 0x0C then ascii "\\f"
  else if b = 0x0A then ascii "\\n"
  else if b = 0x0D then ascii "\\r"
  else if b = 0x09 then ascii "\\t"
  else ascii "\\u00" ++ [hexDigit (b >>> 4), hexDigit (b &&& 0xF)]

/-- The loop of `appendString` of `encoding/json` on the bytes of the string that are left. A
byte that starts no valid UTF-8 sequence is written as U+FFFD, the bytes `EF BF BD` (releases of
Go that write the escape `\ufffd` instead produce a text that reads back as the same bytes);
U+2028 and U+2029 are written as escapes; every other sequence is copied. -/
def appendStringLoop : Nat → List Nat → List Nat
  | 0, _ => []
  | _ + 1, [] => []
  | fuel + 1, b :: rest =>
    if b < 0x80 then escapeASCII b ++ appendStringLoop fuel rest
    else
      let r := decodeRune ((b :: rest).take 4)
      if r.1 = RuneError ∧ r.2 = 1 then encodeRune RuneError ++ appendStringLoop fuel rest
      else if r.1 = 0x2028 ∨ r.1 = 0x2029 then
        ascii "\\u202" ++ [hexDigit (r.1 &&& 0xF)] ++ appendStringLoop fuel ((b :: rest).drop r.2)
      else (b :: rest).take r.2 ++ appendStringLoop fuel ((b :: rest).drop r.2)

/-- Go `appendString` of `encoding/json`: the JSON string for a Go string. -/
def appendString (s : List Nat) : List Nat :=
  [0x22] ++ appendStringLoop (s.length + 1) s ++ [0x22]

/-- The JSON object `json.Marshal` writes for a `FileMetadata`. -/
def marshalFile (f : FileMetadata) : List Nat :=
  ascii "\x7b\"path\":" ++ appendString f.Path ++ ascii ",\"size\":" ++ ascii (toString f.Size) ++
    ascii "\x7d"

/-- Go `json.Marshal` at `[]FileMetadata`: `null` for the nil slice `packDirectory` has when
the directory holds no file, an array of objects otherwise. -/
def jsonMarshal : List FileMetadata → List Nat
  | [] => ascii "null"
  | f :: fs => ascii "[" ++ (ascii ",").intercalate ((f :: fs).map marshalFile) ++ ascii "]"

/-- The value of a hex digit. -/
def hexVal (b : Nat) : Option Nat :=
  if 0x30 ≤ b ∧ b ≤ 0x39 then some (b - 0x30)
  else if 0x61 ≤ b ∧ b ≤ 0x66 then some (b - 0x61 + 10)
  else if 0x41 ≤ b ∧ b ≤ 0x46 then some (b - 0x41 + 10)
  else none

/-- The rune of the four hex digits of a `\u` escape. -/
def hex4 (a b c d : Nat) : Option Nat :=
  match hexVal a, hexVal b, hexVal c, hexVal d with
  | some x, some y, some z, some w => some (x * 4096 + y * 256 + z * 16 + w)
  | _, _, _, _ => none

/-- A JSON string after its opening quote, as `encoding/json` unquotes it: the Go string and
what follows the closing quote. An escape is replaced by what it stands for, a control character
is an error, a byte that starts no valid UTF-8 sequence is read as U+FFFD, every other
sequence is copied. Escapes of surrogates are not read. -/
def unquoteTail : Nat → List Nat → Option (List Nat × List Nat)
  | 0, _ => none
  | _ + 1, [] => none
  | fuel + 1, b :: rest =>
    if b = 0x22 then some ([], rest)
    else if b = 0x5C then
      match rest with
      | [] => none
      | e :: rest2 =>
        let simple (c : Nat) := (unquoteTail fuel rest2).map (fun r => (c :: r.1, r.2))
        if e = 0x22 ∨ e = 0x5C ∨ e = 0x2F then simple e
        else if e = 0x62 then simple 0x08
        else if e = 0x66 then simple 0x0C
        else if e = 0x6E then simple 0x0A
        else if e = 0x72 then simple 0x0D
        else if e = 0x74 then simple 0x09
        else if e = 0x75 then
          match rest2 with
          | h1 :: h2 :: h3 :: h4 :: rest3 =>
            match hex4 h1 h2 h3 h4 with
            | some c =>
              if 0xD800 ≤ c ∧ c < 0xE000 then none
              else (unquoteTail fuel rest3).map (fun r => (encodeRune c ++ r.1, r.2))
            | none => none
          | _ => none
        else none
    else if b < 0x20 then none
    else if b < 0x80 then (unquoteTail fuel rest).map (fun r => (b :: r.1, r.2))
    else
      let d := decodeRune (b :: rest)
      if d.1 = RuneError ∧ d.2 = 1 then
        (unquoteTail fuel rest).map (fun r => (encodeRune RuneError ++ r.1, r.2))
      else
        (unquoteTail fuel ((b :: rest).drop d.2)).map (fun r => ((b :: rest).take d.2 ++ r.1, r.2))

/-- Removes a given text from the front of the input. -/
def expect (p : List Nat) (input : List Nat) : Option (List Nat) :=
  if p.isPrefixOf input then some (input.drop p.length) else none

/-- A JSON integer that fits an `int64`: its value and the rest of the input. -/
def readInt (input : List Nat) : Option (Int × List Nat) :=
  let neg := input.head? = some 0x2D
  let body := if neg then input.drop 1 else input
  let ds := body.takeWhile (fun b => 0x30 ≤ b && b ≤ 0x39)
  if ds = [] ∨ (ds.head? = some 0x30 ∧ ds.length ≠ 1) then none
  else
    let n : Nat := ds.foldl (fun n b => n * 10 + (b - 0x30)) 0
    let v : Int := if neg then - (n : Int) else (n : Int)
    if v < - 2 ^ 63 ∨ v > 2 ^ 63 - 1 then none else some (v, body.drop ds.length)

/-- One object `{"path":...,"size":...}` in the form `json.Marshal` writes it. -/
def readFile (input : List Nat) : Option (FileMetadata × List Nat) :=
  match expect (ascii "\x7b\"path\":\"") input with
  | none => none
  | some r1 =>
    match unquoteTail (r1.length + 1) r1 with
    | none => none
    | some (path, r2) =>
      match expect (ascii ",\"size\":") r2 with
      | none => none
      | some r3 =>
        match readInt r3 with
        | none => none
        | some (size, r4) =>
          match expect (ascii "\x7d") r4 with
          | none => none
          | some r5 => some ({ Path := path, Size := size }, r5)

/-- The objects of the array after the first, up to the closing bracket at the end. -/
def readMore : Nat → List Nat → Option (List FileMetadata)
  | 0, _ => none
  | fuel + 1, input =>
    if input = ascii "]" then some []
    else
      match expect (ascii ",") input with
      | none => none
      | some r1 =>
        match readFile r1 with
        | none => none
        | some (f, r2) => (readMore fuel r2).map (fun l => f :: l)

/-- A decoder for the texts `json.Marshal` writes at `[]FileMetadata` (no white space, the
keys `path` and `size` in this order), on which `json.Unmarshal` returns the same value;
`json.Unmarshal` reads other JSON texts as well, this decoder answers `none` on them. -/
def compactUnmarshal (input : List Nat) : Option (List FileMetadata) :=
  if input = ascii "null" ∨ input = ascii "[]" then some []
  else
    match expect (ascii "[") input with
    | none => none
    | some r1 =>
      match readFile r1 with
      | none => none
      | some (f, r2) => (readMore (r2.length + 1) r2).map (fun l => f :: l)

/-- The loop of Go `utf8.Valid`: no rune of the string decodes as an encoding error. -/
def validUTF8Loop : Nat → List Nat → Bool
  | 0, _ => false
  | _ + 1, [] => true
  | fuel + 1, b :: rest =>
    let r := decodeRune (b :: rest)
    if r.1 = RuneError ∧ r.2 = 1 then false else validUTF8Loop fuel ((b :: rest).drop r.2)

/-- Go `utf8.Valid`: the string is valid UTF-8. -/
def validUTF8 (s : List Nat) : Bool := validUTF8Loop (s.length + 1) s

end Cluster

namespace Discover

/-! ## Notions the statements below use -/

/-- An address text parses as an IPv4 CIDR: `net.ParseCIDR` accepts it and the address has a
4-byte form. -/
def isIPv4CIDR (parse : String → Option (IP × IPNet)) (addr : String) : Bool :=
  match parse addr with
  | some (ip, _) => (To4 ip).isSome
  | none => false

/-- An interface is usable: it is up, is not a loopback, its addresses can be read, and one
of them parses as an IPv4 CIDR. -/
def usable (parse : String → Option (IP × IPNet)) (iface : Interface) : Bool :=
  iface.Flags &&& FlagUp != 0 && iface.Flags &&& FlagLoopback == 0 &&
    match iface.Addrs with
    | .ok addrs => addrs.any (isIPv4CIDR parse)
    | .error _ => false

/-- The text of a JSON array of strings none of which needs an escape: the entries in double
quotes, separated by single commas, between brackets. -/
def jsonArrayText (l : List String) : String :=
  "[" ++ ",".intercalate (l.map (fun ip => "\"" ++ ip ++ "\"")) ++ "]"

/-- A character a JSON string may hold unescaped. -/
def jsonPlain (c : Char) : Prop := c ≠ '"' ∧ c ≠ '\\' ∧ ¬ c.toNat < 0x20

/-- A text `ip:port`: four numbers in dotted decimal, a colon, a port in decimal, which is what
line 88 prints for a 4-byte address. -/
def isEndpoint (s : String) : Prop :=
  ∃ (x y z w : Nat) (port : Int), s = dotted [x, y, z, w] ++ ":" ++ toString port

/-! ## A host to run the program on -/

/-- The texts `net.ParseCIDR` is given on the host below, with its results. -/
def exampleParseCIDR (s : String) : Option (IP × IPNet) :=
  if s = "10.0.0.7/24" then some (parsedCIDR4 10 0 0 7 24)
  else if s = "10.9.9.9/24" then some (parsedCIDR4 10 9 9 9 24)
  else if s = "127.0.0.1/8" then some (parsedCIDR4 127 0 0 1 8)
  else if s = "fe80::1/64" then
    some ([0xfe, 0x80, 0, 0, 0, 0, 0, 0, 0, 0, 0, 0, 0, 0, 0, 1],
      { IP := [0xfe, 0x80, 0, 0, 0, 0, 0, 0, 0, 0, 0, 0, 0, 0, 0, 0], Mask := CIDRMask 64 128 })
  else none

/-- The interfaces of the host below: a loopback, an interface that is down, one whose
addresses cannot be read, and one with an IPv6 and an IPv4 address. -/
def exampleInterfaces : List Interface :=
  [{ Flags := 5, Addrs := .ok ["127.0.0.1/8"] },
   { Flags := 2, Addrs := .ok ["10.9.9.9/24"] },
   { Flags := 1, Addrs := .error "permission denied" },
   { Flags := 3, Addrs := .ok ["fe80::1/64", "10.0.0.7/24"] }]

/-- A host on the subnet 10.0.0.0/24 where 10.0.0.5 and 10.0.0.9 listen on port 3000. No
address it prints is an IPv6 address. -/
def exampleHost : Host :=
  { Interfaces := .ok exampleInterfaces
    ParseCIDR := exampleParseCIDR
    Dial := fun addr => addr == "10.0.0.5:3000" || addr == "10.0.0.9:3000"
    IPv6String := fun _ => "" }

/-- A host without network interfaces. -/
def isolatedHost : Host :=
  { Interfaces := .ok []
    ParseCIDR := exampleParseCIDR
    Dial := fun _ => false
    IPv6String := fun _ => "" }

/-- The URL `discover://scan?port=8080&serve=true` as `url.Parse` returns it: the values
`u.Query().Get` finds in its query. -/
def exampleURL : URL :=
  { QueryGet := fun k => if k = "port" then "8080" else if k = "serve" then "true" else "" }

/-- The result of `url.Parse` on that discovery URI; every other text is taken not to parse. -/
def exampleURLParse (s : String) : Option URL :=
  if s = "discover://scan?port=8080&serve=true" then some exampleURL else none

/-- The configuration `main` starts from. -/
def defaultConfig : Config :=
  { scanPort := 3000, apiPort := 7370, serveAPI := false }

end Discover

namespace Cluster

/-- A directory with three files in the order `filepath.Walk` visits them, one of them empty and
in a subdirectory, one with a name that is not ASCII (`é.txt` in UTF-8). -/
def exampleDir : List DirFile :=
  [{ Path := ascii "a<b>.txt", Size := 3, Content := [1, 2, 3] },
   { Path := ascii "d/b", Size := 0, Content := [] },
   { Path := [0xC3, 0xA9] ++ ascii ".txt", Size := 2, Content := [9, 9] }]

end Cluster

namespace Discover

/-! ## The enumeration loop -/

theorem inc_ofNat32 (n : Nat) : inc (ofNat32 n) = ofNat32 (n + 1) := by
  simp only [inc, ofNat32, incAt, List.length_cons, List.length_nil]
  simp
  split_ifs <;> simp <;> omega

theorem toNat32_ofNat32 (n : Nat) (h : n < 2 ^ 32) : toNat32 (ofNat32 n) = n := by
  simp [toNat32, ofNat32]
  omega

theorem ofNat32_toNat32 (x y z w : Nat) (hx : x < 256) (hy : y < 256) (hz : z < 256)
    (hw : w < 256) : ofNat32 (toNat32 [x, y, z, w]) = [x, y, z, w] := by
  simp [toNat32, ofNat32]
  omega

theorem incIter_ofNat32 (k n : Nat) : incIter k (ofNat32 n) = ofNat32 (n + k) := by
  induction k generalizing n with
  | zero => rfl
  | succ k ih =>
    have h : incIter (k + 1) (ofNat32 n) = incIter k (inc (ofNat32 n)) := rfl
    rw [h, inc_ofNat32, ih]
    congr 1
    omega

set_option maxRecDepth 100000 in
theorem land_maskByte :
    ∀ k < 9, ∀ x < 256, x &&& ((0xff >>> k) ^^^ 0xff) = x / 2 ^ (8 - k) * 2 ^ (8 - k) := by
  decide!

theorem land_0 (x : Nat) : x &&& 0 = 0 := by simp

theorem land_128 (x : Nat) (h : x < 256) : x &&& 128 = x / 128 * 128 :=
  land_maskByte 1 (by omega) x h

theorem land_192 (x : Nat) (h : x < 256) : x &&& 192 = x / 64 * 64 :=
  land_maskByte 2 (by omega) x h

theorem land_224 (x : Nat) (h : x < 256) : x &&& 224 = x / 32 * 32 :=
  land_maskByte 3 (by omega) x h

theorem land_240 (x : Nat) (h : x < 256) : x &&& 240 = x / 16 * 16 :=
  land_maskByte 4 (by omega) x h

theorem land_248 (x : Nat) (h : x < 256) : x &&& 248 = x / 8 * 8 :=
  land_maskByte 5 (by omega) x h

theorem land_252 (x : Nat) (h : x < 256) : x &&& 252 = x / 4 * 4 :=
  land_maskByte 6 (by omega) x h

theorem land_254 (x : Nat) (h : x < 256) : x &&& 254 = x / 2 * 2 :=
  land_maskByte 7 (by omega) x h

theorem land_255 (x : Nat) (h : x < 256) : x &&& 255 = x := by
  have := land_maskByte 8 (by omega) x h
  simpa using this

theorem contains4 (n0 n1 n2 n3 m0 m1 m2 m3 x0 x1 x2 x3 : Nat) :
    Contains { IP := [n0, n1, n2, n3], Mask := [m0, m1, m2, m3] } [x0, x1, x2, x3] =
      (n0 &&& m0 == x0 &&& m0 && (n1 &&& m1 == x1 &&& m1 && (n2 &&& m2 == x2 &&& m2 &&
        n3 &&& m3 == x3 &&& m3))) := by
  simp [Contains, networkNumberAndMask, To4, List.range, List.range.loop]

theorem cidrMaskLoop_length (l n : Nat) : (cidrMaskLoop l n).length = l := by
  induction l generalizing n with
  | zero => rfl
  | succ l ih => unfold cidrMaskLoop; split <;> simp [ih]

theorem parsedCIDR4_snd (a b c d p : Nat) (hp : p ≤ 32) :
    (parsedCIDR4 a b c d p).2 =
      { IP := List.zipWith (fun x y => x &&& y) [a, b, c, d] (cidrMaskLoop 4 p),
        Mask := cidrMaskLoop 4 p } := by
  have hl : (cidrMaskLoop 4 p).length = 4 := cidrMaskLoop_length 4 p
  have h1 : ¬ p > 32 := by omega
  simp [parsedCIDR4, CIDRMask, Mask, v4InV6Prefix, hl, h1]

theorem start_eq_netIP (a b c d p : Nat) :
    Mask (parsedCIDR4 a b c d p).1 (parsedCIDR4 a b c d p).2.Mask =
      (parsedCIDR4 a b c d p).2.IP := rfl

set_option maxHeartbeats 1000000 in
/-- Masking with `CIDRMask(p, 32)` clears the low `32 - p` bits. -/
theorem mask_ofNat32 (p n : Nat) (hp : p ≤ 32) :
    List.zipWith (fun x y => x &&& y) (ofNat32 n) (cidrMaskLoop 4 p) =
      ofNat32 (n % 2 ^ 32 / 2 ^ (32 - p) * 2 ^ (32 - p)) := by
  interval_cases p
  all_goals
    simp [cidrMaskLoop, ofNat32]
    try simp (disch := omega) only [land_0, land_128, land_192, land_224, land_240, land_248,
      land_252, land_254, land_255]
    try omega

theorem toNat32_four (a b c d : Nat) :
    toNat32 [a, b, c, d] = a * 2 ^ 24 + b * 2 ^ 16 + c * 2 ^ 8 + d := by
  simp [toNat32]
  ring

theorem contains4_zip (n0 n1 n2 n3 m0 m1 m2 m3 x0 x1 x2 x3 : Nat) :
    Contains { IP := [n0, n1, n2, n3], Mask := [m0, m1, m2, m3] } [x0, x1, x2, x3] =
      decide (List.zipWith (fun x y => x &&& y) [n0, n1, n2, n3] [m0, m1, m2, m3] =
        List.zipWith (fun x y => x &&& y) [x0, x1, x2, x3] [m0, m1, m2, m3]) := by
  rw [contains4, Bool.eq_iff_iff]
  simp

theorem ofNat32_inj (m n : Nat) (hm : m < 2 ^ 32) (hn : n < 2 ^ 32)
    (h : ofNat32 m = ofNat32 n) : m = n := by
  rw [← toNat32_ofNat32 m hm, ← toNat32_ofNat32 n hn, h]

theorem div_mul_lt (v S : Nat) (hv : v < 2 ^ 32) : v / S * S < 2 ^ 32 :=
  lt_of_le_of_lt (Nat.div_mul_le_self v S) hv

theorem netIP_eq (a b c d p : Nat) (ha : a < 256) (hb : b < 256) (hc : c < 256)
    (hd : d < 256) (hp : p ≤ 32) :
    (parsedCIDR4 a b c d p).2.IP =
      ofNat32 ((a * 2 ^ 24 + b * 2 ^ 16 + c * 2 ^ 8 + d) / 2 ^ (32 - p) * 2 ^ (32 - p)) := by
  have hv : toNat32 [a, b, c, d] < 2 ^ 32 := by rw [toNat32_four]; omega
  rw [parsedCIDR4_snd a b c d p hp, ← toNat32_four]
  show List.zipWith (fun x y => x &&& y) [a, b, c, d] (cidrMaskLoop 4 p) = _
  rw [← ofNat32_toNat32 a b c d ha hb hc hd, mask_ofNat32 p _ hp, Nat.mod_eq_of_lt hv,
    ofNat32_toNat32 a b c d ha hb hc hd]

theorem contains_ofNat32 (a b c d p n : Nat) (ha : a < 256) (hb : b < 256) (hc : c < 256)
    (hd : d < 256) (hp : p ≤ 32) :
    Contains (parsedCIDR4 a b c d p).2 (ofNat32 n) =
      decide ((n % 2 ^ 32) / 2 ^ (32 - p) =
        (a * 2 ^ 24 + b * 2 ^ 16 + c * 2 ^ 8 + d) / 2 ^ (32 - p)) := by
  have hS : 0 < 2 ^ (32 - p) := Nat.pow_pos (by norm_num)
  have hv : toNat32 [a, b, c, d] < 2 ^ 32 := by rw [toNat32_four]; omega
  have hn : n % 2 ^ 32 < 2 ^ 32 := Nat.mod_lt _ (by norm_num)
  have hip := netIP_eq a b c d p ha hb hc hd hp
  have hmask : (parsedCIDR4 a b c d p).2.Mask = cidrMaskLoop 4 p := by
    rw [parsedCIDR4_snd a b c d p hp]
  have hnet : (parsedCIDR4 a b c d p).2 =
      { IP := (parsedCIDR4 a b c d p).2.IP, Mask := (parsedCIDR4 a b c d p).2.Mask } := rfl
  rw [hnet, hip, hmask, ← toNat32_four]
  obtain ⟨m0, m1, m2, m3, hm⟩ : ∃ m0 m1 m2 m3, cidrMaskLoop 4 p = [m0, m1, m2, m3] := by
    have hl := cidrMaskLoop_length 4 p
    match hM : cidrMaskLoop 4 p, hl with
    | [m0, m1, m2, m3], _ => exact ⟨m0, m1, m2, m3, rfl⟩
  have e1 := mask_ofNat32 p (toNat32 [a, b, c, d] / 2 ^ (32 - p) * 2 ^ (32 - p)) hp
  have e2 := mask_ofNat32 p n hp
  rw [Nat.mod_eq_of_lt (div_mul_lt _ _ hv), Nat.mul_div_cancel _ hS] at e1
  rw [hm] at e1 e2 ⊢
  have key : Contains ⟨ofNat32 (toNat32 [a, b, c, d] / 2 ^ (32 - p) * 2 ^ (32 - p)),
        [m0, m1, m2, m3]⟩ (ofNat32 n) =
      decide (List.zipWith (fun x y => x &&& y)
          (ofNat32 (toNat32 [a, b, c, d] / 2 ^ (32 - p) * 2 ^ (32 - p))) [m0, m1, m2, m3] =
        List.zipWith (fun x y => x &&& y) (ofNat32 n) [m0, m1, m2, m3]) :=
    contains4_zip _ _ _ _ _ _ _ _ _ _ _ _
  rw [key, e1, e2]
  apply decide_eq_decide.2
  constructor
  · intro h
    have := ofNat32_inj _ _ (div_mul_lt _ _ hv) (div_mul_lt _ _ hn) h
    exact (Nat.eq_of_mul_eq_mul_right hS this).symm
  · intro h
    rw [h]

theorem scanLoop_run (net : IPNet) (q S : Nat) (hS : 0 < S) (hle : (q + 1) * S ≤ 2 ^ 32)
    (hq : (q + 1) * S = 2 ^ 32 → 1 ≤ q)
    (hC : ∀ n, Contains net (ofNat32 n) = decide (n % 2 ^ 32 / S = q)) :
    ∀ k i, i + k = S → ∀ fuel, k < fuel →
      scanLoop net fuel (ofNat32 (q * S + i)) =
        some ((List.range' (q * S + i) k).map ofNat32) := by
  intro k
  induction k with
  | zero =>
    intro i hi fuel hf
    obtain ⟨f, rfl⟩ : ∃ f, fuel = f + 1 := ⟨fuel - 1, by omega⟩
    have hi' : i = S := by omega
    subst hi'
    have hne : ¬ ((q * i + i) % 2 ^ 32 / i = q) := by
      have e : q * i + i = (q + 1) * i := by ring
      rw [e]
      rcases Nat.lt_or_ge ((q + 1) * i) (2 ^ 32) with h | h
      · rw [Nat.mod_eq_of_lt h, Nat.mul_div_cancel _ hS]; omega
      · have h2 : (q + 1) * i = 2 ^ 32 := by omega
        have := hq h2
        rw [h2]; simp; omega
    simp only [scanLoop, hC, hne, decide_False]
    simp
  | succ k ih =>
    intro i hi fuel hf
    obtain ⟨f, rfl⟩ : ∃ f, fuel = f + 1 := ⟨fuel - 1, by omega⟩
    have hlt : q * S + i < 2 ^ 32 := by
      have : (q + 1) * S = q * S + S := by ring
      omega
    have hin : (q * S + i) % 2 ^ 32 / S = q := by
      rw [Nat.mod_eq_of_lt hlt, Nat.mul_comm q S, Nat.mul_add_div hS,
        Nat.div_eq_of_lt (by omega)]
      rfl
    have := ih (i + 1) (by omega) f (by omega)
    simp only [scanLoop, hC, hin, decide_True, if_true, inc_ofNat32]
    rw [show q * S + i + 1 = q * S + (i + 1) by ring, this]
    simp [List.range'_succ]
    rfl

/-- The facts about quotient and size of a subnet with a prefix of 1 to 32 bits. -/
theorem subnet_arith (v p : Nat) (hv : v < 2 ^ 32) (hp1 : 1 ≤ p) (hp : p ≤ 32) :
    0 < 2 ^ (32 - p) ∧ (v / 2 ^ (32 - p) + 1) * 2 ^ (32 - p) ≤ 2 ^ 32 ∧
      ((v / 2 ^ (32 - p) + 1) * 2 ^ (32 - p) = 2 ^ 32 → 1 ≤ v / 2 ^ (32 - p)) := by
  have hS : 0 < 2 ^ (32 - p) := Nat.pow_pos (by norm_num)
  have hpow : 2 ^ p * 2 ^ (32 - p) = 2 ^ 32 := by
    rw [← pow_add]; congr 1; omega
  have hq : v / 2 ^ (32 - p) < 2 ^ p := by
    rw [Nat.div_lt_iff_lt_mul hS, hpow]; exact hv
  refine ⟨hS, ?_, ?_⟩
  · calc (v / 2 ^ (32 - p) + 1) * 2 ^ (32 - p) ≤ 2 ^ p * 2 ^ (32 - p) :=
          Nat.mul_le_mul_right _ hq
      _ = 2 ^ 32 := hpow
  · intro h
    have h2 : v / 2 ^ (32 - p) + 1 = 2 ^ p := by
      have := h.trans hpow.symm
      exact Nat.eq_of_mul_eq_mul_right hS this
    have h3 : 2 ≤ 2 ^ p := by
      calc 2 = 2 ^ 1 := by norm_num
        _ ≤ 2 ^ p := Nat.pow_le_pow_right (by norm_num) hp1
    omega

/-- The enumeration of an IPv4 subnet with a prefix of 1 to 32 bits, with enough fuel. -/
theorem scanLoop_subnet (a b c d p fuel : Nat) (ha : a < 256) (hb : b < 256) (hc : c < 256)
    (hd : d < 256) (hp1 : 1 ≤ p) (hp : p ≤ 32) (hf : 2 ^ (32 - p) < fuel) :
    scanLoop (parsedCIDR4 a b c d p).2 fuel
        (Mask (parsedCIDR4 a b c d p).1 (parsedCIDR4 a b c d p).2.Mask) =
      some ((List.range' (toNat32 [a, b, c, d] / 2 ^ (32 - p) * 2 ^ (32 - p))
        (2 ^ (32 - p))).map ofNat32) := by
  have hv : toNat32 [a, b, c, d] < 2 ^ 32 := by rw [toNat32_four]; omega
  obtain ⟨hS, hle, hq⟩ := subnet_arith _ p hv hp1 hp
  rw [start_eq_netIP, netIP_eq a b c d p ha hb hc hd hp, ← toNat32_four]
  have hC : ∀ n, Contains (parsedCIDR4 a b c d p).2 (ofNat32 n) =
      decide (n % 2 ^ 32 / 2 ^ (32 - p) = toNat32 [a, b, c, d] / 2 ^ (32 - p)) := by
    intro n
    rw [contains_ofNat32 a b c d p n ha hb hc hd hp, toNat32_four]
  have := scanLoop_run _ _ _ hS hle hq hC (2 ^ (32 - p)) 0 (by omega) fuel hf
  simpa using this

theorem range'_map_ofNat32_nodup (base S : Nat) (h : base + S ≤ 2 ^ 32) :
    ((List.range' base S).map ofNat32).Nodup := by
  refine (List.nodup_range' base S).map_on ?_
  intro x hx y hy hxy
  rw [List.mem_range'_1] at hx hy
  have h1 := toNat32_ofNat32 x (by omega)
  have h2 := toNat32_ofNat32 y (by omega)
  rw [← h1, ← h2, hxy]

theorem range'_map_ofNat32_sorted (base S : Nat) (h : base + S ≤ 2 ^ 32) :
    ((List.range' base S).map ofNat32).Pairwise (fun s t => toNat32 s < toNat32 t) := by
  rw [List.pairwise_map]
  have hs : (List.range' base S).Pairwise (fun x y => x < y) := List.pairwise_lt_range' base S
  have hm : ∀ x ∈ List.range' base S, x < 2 ^ 32 := by
    intro x hx
    rw [List.mem_range'_1] at hx
    omega
  refine (List.Pairwise.and_mem.1 hs).imp ?_
  intro x y hxy
  rw [toNat32_ofNat32 x (hm x hxy.1), toNat32_ofNat32 y (hm y hxy.2.1)]
  exact hxy.2.2

end Discover

namespace Discover

theorem div_eq_iff_range (n S q : Nat) (hS : 0 < S) :
    n / S = q ↔ q * S ≤ n ∧ n < q * S + S := by
  constructor
  · intro h
    subst h
    have h1 := Nat.div_mul_le_self n S
    have h2 := Nat.lt_div_mul_add hS (a := n)
    exact ⟨h1, h2⟩
  · rintro ⟨h1, h2⟩
    have h3 : q ≤ n / S := (Nat.le_div_iff_mul_le hS).2 h1
    have h4 : n / S < q + 1 := by
      rw [Nat.div_lt_iff_lt_mul hS]
      have : (q + 1) * S = q * S + S := by ring
      omega
    omega

theorem mem_targets_iff (a b c d p x y z w : Nat) (ha : a < 256) (hb : b < 256) (hc : c < 256)
    (hd : d < 256) (hp : p ≤ 32) (hx : x < 256) (hy : y < 256) (hz : z < 256) (hw : w < 256) :
    [x, y, z, w] ∈ (List.range' (toNat32 [a, b, c, d] / 2 ^ (32 - p) * 2 ^ (32 - p))
        (2 ^ (32 - p))).map ofNat32 ↔
      Contains (parsedCIDR4 a b c d p).2 [x, y, z, w] = true := by
  have hS : 0 < 2 ^ (32 - p) := Nat.pow_pos (by norm_num)
  have hn : toNat32 [x, y, z, w] < 2 ^ 32 := by rw [toNat32_four]; omega
  have hC := contains_ofNat32 a b c d p (toNat32 [x, y, z, w]) ha hb hc hd hp
  rw [ofNat32_toNat32 x y z w hx hy hz hw, Nat.mod_eq_of_lt hn, ← toNat32_four] at hC
  rw [hC, decide_eq_true_eq, div_eq_iff_range _ _ _ hS, List.mem_map]
  constructor
  · rintro ⟨m, hm, hmx⟩
    rw [List.mem_range'_1] at hm
    have hv : toNat32 [a, b, c, d] < 2 ^ 32 := by rw [toNat32_four]; omega
    have hle : toNat32 [a, b, c, d] / 2 ^ (32 - p) * 2 ^ (32 - p) ≤ toNat32 [a, b, c, d] :=
      Nat.div_mul_le_self _ _
    rcases Nat.lt_or_ge m (2 ^ 32) with h32 | h32
    · have := toNat32_ofNat32 m h32
      rw [hmx] at this
      omega
    · -- the range stays below 2 ^ 32 when the prefix has at least one bit; otherwise it is all
      -- of the address space
      have : toNat32 (ofNat32 m) = toNat32 [x, y, z, w] := by rw [hmx]
      have hlt : toNat32 [a, b, c, d] / 2 ^ (32 - p) * 2 ^ (32 - p) + 2 ^ (32 - p) ≤ 2 ^ 32 := by
        rcases Nat.eq_zero_or_pos p with h0 | h0
        · subst h0
          have : toNat32 [a, b, c, d] / 2 ^ (32 - 0) = 0 := Nat.div_eq_of_lt hv
          rw [this]; norm_num
        · have := (subnet_arith (toNat32 [a, b, c, d]) p hv h0 hp).2.1
          have e : (toNat32 [a, b, c, d] / 2 ^ (32 - p) + 1) * 2 ^ (32 - p) =
              toNat32 [a, b, c, d] / 2 ^ (32 - p) * 2 ^ (32 - p) + 2 ^ (32 - p) := by ring
          omega
      omega
  · rintro ⟨h1, h2⟩
    exact ⟨toNat32 [x, y, z, w], by rw [List.mem_range'_1]; exact ⟨h1, h2⟩,
      ofNat32_toNat32 x y z w hx hy hz hw⟩

/-- C1. For an IPv4 interface address `a.b.c.d` with a prefix of 1 to 32 bits, as
`net.ParseCIDR` returns it, the loop of `runDiscoveryScan` (start at `ip.Mask(ipnet.Mask)`,
continue while `ipnet.Contains(ip)`, step with `inc`) ends, given more fuel than the subnet has
addresses, and launches its probes on exactly the `2 ^ (32 - p)` addresses from the network
address on, each once, in ascending numeric order: the last one is the broadcast address, no
address comes twice, and the 4-byte addresses probed are those the network contains. -/
theorem scanLoop_probes_each_subnet_address_once (a b c d p fuel : Nat)
    (ha : a < 256) (hb : b < 256) (hc : c < 256) (hd : d < 256)
    (hp1 : 1 ≤ p) (hp : p ≤ 32) (hf : 2 ^ (32 - p) < fuel) :
    ∃ targets : List IP,
      scanLoop (parsedCIDR4 a b c d p).2 fuel
          (Mask (parsedCIDR4 a b c d p).1 (parsedCIDR4 a b c d p).2.Mask) = some targets ∧
      targets = (List.range' (toNat32 [a, b, c, d] / 2 ^ (32 - p) * 2 ^ (32 - p))
          (2 ^ (32 - p))).map ofNat32 ∧
      toNat32 [a, b, c, d] / 2 ^ (32 - p) * 2 ^ (32 - p) + 2 ^ (32 - p) ≤ 2 ^ 32 ∧
      targets.length = 2 ^ (32 - p) ∧
      targets.Nodup ∧
      targets.Pairwise (fun s t => toNat32 s < toNat32 t) ∧
      (∀ x y z w, x < 256 → y < 256 → z < 256 → w < 256 →
        ([x, y, z, w] ∈ targets ↔ Contains (parsedCIDR4 a b c d p).2 [x, y, z, w] = true)) := by
  have hv : toNat32 [a, b, c, d] < 2 ^ 32 := by rw [toNat32_four]; omega
  have hle : toNat32 [a, b, c, d] / 2 ^ (32 - p) * 2 ^ (32 - p) + 2 ^ (32 - p) ≤ 2 ^ 32 := by
    have := (subnet_arith (toNat32 [a, b, c, d]) p hv hp1 hp).2.1
    have e : (toNat32 [a, b, c, d] / 2 ^ (32 - p) + 1) * 2 ^ (32 - p) =
        toNat32 [a, b, c, d] / 2 ^ (32 - p) * 2 ^ (32 - p) + 2 ^ (32 - p) := by ring
    omega
  refine ⟨_, scanLoop_subnet a b c d p fuel ha hb hc hd hp1 hp hf, rfl, hle, by simp,
    range'_map_ofNat32_nodup _ _ hle, range'_map_ofNat32_sorted _ _ hle, ?_⟩
  intro x y z w hx hy hz hw
  exact mem_targets_iff a b c d p x y z w ha hb hc hd hp hx hy hz hw

/-- C1, at the interface address 10.0.0.7/24: the loop probes exactly 10.0.0.0 through
10.0.0.255, 256 targets, in this order. -/
theorem scanLoop_probes_10_0_0_7_slash_24 :
    scanLoop (parsedCIDR4 10 0 0 7 24).2 257
        (Mask (parsedCIDR4 10 0 0 7 24).1 (parsedCIDR4 10 0 0 7 24).2.Mask) =
      some ((List.range 256).map (fun k => [10, 0, 0, k])) := by
  obtain ⟨targets, h1, h2, -⟩ := scanLoop_probes_each_subnet_address_once 10 0 0 7 24 257
    (by norm_num) (by norm_num) (by norm_num) (by norm_num) (by norm_num) (by norm_num)
    (by norm_num)
  rw [h1, h2]
  decide!

/-- With a prefix of no bits the network contains every address `inc` produces. -/
theorem scanLoop_prefix_zero (a b c d : Nat) (ha : a < 256) (hb : b < 256) (hc : c < 256)
    (hd : d < 256) (fuel n : Nat) :
    scanLoop (parsedCIDR4 a b c d 0).2 fuel (ofNat32 n) = none ∧
      Contains (parsedCIDR4 a b c d 0).2 (incIter fuel (ofNat32 n)) = true := by
  have hC : ∀ m, Contains (parsedCIDR4 a b c d 0).2 (ofNat32 m) = true := by
    intro m
    rw [contains_ofNat32 a b c d 0 m ha hb hc hd (by norm_num), decide_eq_true_eq]
    have h1 : m % 2 ^ 32 < 2 ^ 32 := Nat.mod_lt _ (by norm_num)
    rw [Nat.div_eq_of_lt (by simpa using h1), Nat.div_eq_of_lt (by norm_num; omega)]
  refine ⟨?_, by rw [incIter_ofNat32]; exact hC _⟩
  induction fuel generalizing n with
  | zero => rfl
  | succ f ih => simp [scanLoop, hC, inc_ofNat32, ih]

/-- C9, at the interface address 10.0.0.7/0: whatever the fuel, the enumeration loop of
`runDiscoveryScan` has not ended when it runs out, and after any number of steps of `inc`
(beyond the `2 ^ 32` addresses of the subnet too) the loop condition `ipnet.Contains(ip)` still
holds, so that one more probe is launched. -/
theorem scanLoop_prefix_zero_never_ends (fuel : Nat) :
    scanLoop (parsedCIDR4 10 0 0 7 0).2 fuel
        (Mask (parsedCIDR4 10 0 0 7 0).1 (parsedCIDR4 10 0 0 7 0).2.Mask) = none ∧
      Contains (parsedCIDR4 10 0 0 7 0).2
        (incIter fuel (Mask (parsedCIDR4 10 0 0 7 0).1 (parsedCIDR4 10 0 0 7 0).2.Mask)) = true := by
  have h : Mask (parsedCIDR4 10 0 0 7 0).1 (parsedCIDR4 10 0 0 7 0).2.Mask = ofNat32 0 := by
    decide
  rw [h]
  exact scanLoop_prefix_zero 10 0 0 7 (by norm_num) (by norm_num) (by norm_num) (by norm_num)
    fuel 0

end Discover

namespace Discover

/-! ## `localSubnet` -/

theorem firstIPv4_eq_none (parse : String → Option (IP × IPNet)) (addrs : List String) :
    firstIPv4 parse addrs = none ↔ addrs.any (isIPv4CIDR parse) = false := by
  induction addrs with
  | nil => simp [firstIPv4]
  | cons a rest ih =>
    simp only [firstIPv4, List.any_cons, isIPv4CIDR]
    rcases hpa : parse a with _ | ⟨ip, ipnet⟩
    · simpa using ih
    · by_cases h4 : (To4 ip).isSome = true
      · simp [h4]
      · simp only [h4, if_false]
        simpa [h4] using ih

theorem firstIPv4_eq_some (parse : String → Option (IP × IPNet)) (addrs : List String)
    (r : IP × IPNet) (h : firstIPv4 parse addrs = some r) :
    ∃ before addr after, addrs = before ++ addr :: after ∧
      (∀ x ∈ before, isIPv4CIDR parse x = false) ∧ parse addr = some r ∧
      (To4 r.1).isSome = true := by
  induction addrs with
  | nil => simp [firstIPv4] at h
  | cons a rest ih =>
    simp only [firstIPv4] at h
    rcases hpa : parse a with _ | ⟨ip, ipnet⟩
    · rw [hpa] at h
      obtain ⟨before, addr, after, h1, h2, h3, h4⟩ := ih h
      refine ⟨a :: before, addr, after, by simp [h1], ?_, h3, h4⟩
      intro x hx
      rcases List.mem_cons.1 hx with rfl | hx
      · simp [isIPv4CIDR, hpa]
      · exact h2 x hx
    · rw [hpa] at h
      by_cases h4 : (To4 ip).isSome = true
      · simp only [h4, if_true, Option.some.injEq] at h
        subst h
        exact ⟨[], a, rest, rfl, by simp, hpa, h4⟩
      · simp only [h4, if_false] at h
        obtain ⟨before, addr, after, h1, h2, h3, h5⟩ := ih h
        refine ⟨a :: before, addr, after, by simp [h1], ?_, h3, h5⟩
        intro x hx
        rcases List.mem_cons.1 hx with rfl | hx
        · simpa [isIPv4CIDR, hpa] using h4
        · exact h2 x hx

theorem localSubnetLoop_skip (parse : String → Option (IP × IPNet)) (iface : Interface)
    (rest : List Interface) (h : usable parse iface = false) :
    localSubnetLoop parse (iface :: rest) = localSubnetLoop parse rest := by
  simp only [localSubnetLoop]
  by_cases hf : iface.Flags &&& FlagUp = 0 ∨ iface.Flags &&& FlagLoopback ≠ 0
  · simp [hf]
  · simp only [hf, if_false]
    rcases ha : iface.Addrs with e | addrs
    · rfl
    · have hn : firstIPv4 parse addrs = none := by
        rw [firstIPv4_eq_none]
        simp only [usable, ha] at h
        push_neg at hf
        simpa [hf.1, hf.2] using h
      simp [hn]

theorem localSubnetLoop_take (parse : String → Option (IP × IPNet)) (iface : Interface)
    (rest : List Interface) (h : usable parse iface = true) :
    ∃ addrs r, iface.Addrs = .ok addrs ∧ firstIPv4 parse addrs = some r ∧
      localSubnetLoop parse (iface :: rest) = .ok r := by
  simp only [usable, Bool.and_eq_true, bne_iff_ne, beq_iff_eq] at h
  obtain ⟨⟨h1, h2⟩, h3⟩ := h
  rcases ha : iface.Addrs with e | addrs
  · simp [ha] at h3
  · rw [ha] at h3
    have hs : firstIPv4 parse addrs ≠ none := by
      intro hn
      rw [firstIPv4_eq_none] at hn
      simp only [hn] at h3
      exact Bool.false_ne_true h3
    obtain ⟨r, hr⟩ := Option.ne_none_iff_exists'.1 hs
    refine ⟨addrs, r, rfl, hr, ?_⟩
    have hf : ¬ (iface.Flags &&& FlagUp = 0 ∨ iface.Flags &&& FlagLoopback ≠ 0) := by
      push_neg
      exact ⟨h1, h2⟩
    simp [localSubnetLoop, hf, ha, hr]

theorem localSubnetLoop_error (parse : String → Option (IP × IPNet)) (ifaces : List Interface)
    (h : ∀ iface ∈ ifaces, usable parse iface = false) :
    localSubnetLoop parse ifaces = .error "no active IPv4 interface found" := by
  induction ifaces with
  | nil => rfl
  | cons i rest ih =>
    rw [localSubnetLoop_skip parse i rest (h i (List.mem_cons_self _ _))]
    exact ih (fun x hx => h x (List.mem_cons_of_mem _ hx))

theorem localSubnetLoop_first (parse : String → Option (IP × IPNet)) (ifaces : List Interface)
    (h : ∃ iface ∈ ifaces, usable parse iface = true) :
    ∃ skipped iface later addrs before addr after r,
      ifaces = skipped ++ iface :: later ∧
      (∀ i ∈ skipped, usable parse i = false) ∧ usable parse iface = true ∧
      iface.Addrs = .ok addrs ∧ addrs = before ++ addr :: after ∧
      (∀ x ∈ before, isIPv4CIDR parse x = false) ∧
      parse addr = some r ∧ (To4 r.1).isSome = true ∧
      localSubnetLoop parse ifaces = .ok r := by
  induction ifaces with
  | nil => simp at h
  | cons i rest ih =>
    by_cases hu : usable parse i = true
    · obtain ⟨addrs, r, h1, h2, h3⟩ := localSubnetLoop_take parse i rest hu
      obtain ⟨before, addr, after, h4, h5, h6, h7⟩ := firstIPv4_eq_some parse addrs r h2
      exact ⟨[], i, rest, addrs, before, addr, after, r, rfl, by simp, hu, h1, h4, h5, h6, h7, h3⟩
    · have hu' : usable parse i = false := by simpa using hu
      have hrest : ∃ iface ∈ rest, usable parse iface = true := by
        obtain ⟨x, hx, hxu⟩ := h
        rcases List.mem_cons.1 hx with rfl | hx
        · exact absurd hxu hu
        · exact ⟨x, hx, hxu⟩
      obtain ⟨skipped, iface, later, addrs, before, addr, after, r, h1, h2, h3, h4, h5, h6, h7,
        h8, h9⟩ := ih hrest
      refine ⟨i :: skipped, iface, later, addrs, before, addr, after, r, by simp [h1], ?_, h3, h4,
        h5, h6, h7, h8, ?_⟩
      · intro x hx
        rcases List.mem_cons.1 hx with rfl | hx
        · exact hu'
        · exact h2 x hx
      · rw [localSubnetLoop_skip parse i rest hu']
        exact h9

/-- C8. On a host whose interface list can be read, `localSubnet` returns an error exactly when
no interface is usable (up, not a loopback, addresses readable, one of them an IPv4 CIDR), and
the error is then "no active IPv4 interface found"; when some interface is usable it returns
what `net.ParseCIDR` gives for the first IPv4 CIDR address of the first usable interface in
list order: the interfaces before it are not usable and the addresses before it are not IPv4
CIDRs. -/
theorem localSubnet_first_usable_interface (h : Host) (ifaces : List Interface)
    (hi : h.Interfaces = .ok ifaces) :
    ((∃ e, localSubnet h = .error e) ↔ ∀ iface ∈ ifaces, usable h.ParseCIDR iface = false) ∧
    ((∀ iface ∈ ifaces, usable h.ParseCIDR iface = false) →
      localSubnet h = .error "no active IPv4 interface found") ∧
    ((∃ iface ∈ ifaces, usable h.ParseCIDR iface = true) →
      ∃ skipped iface later addrs before addr after r,
        ifaces = skipped ++ iface :: later ∧
        (∀ i ∈ skipped, usable h.ParseCIDR i = false) ∧ usable h.ParseCIDR iface = true ∧
        iface.Addrs = .ok addrs ∧ addrs = before ++ addr :: after ∧
        (∀ x ∈ before, isIPv4CIDR h.ParseCIDR x = false) ∧
        h.ParseCIDR addr = some r ∧ (To4 r.1).isSome = true ∧
        localSubnet h = .ok r) := by
  have hl : localSubnet h = localSubnetLoop h.ParseCIDR ifaces := by
    simp [localSubnet, hi]
  rw [hl]
  refine ⟨⟨?_, fun hn => ⟨_, localSubnetLoop_error _ _ hn⟩⟩, localSubnetLoop_error _ _,
    localSubnetLoop_first _ _⟩
  rintro ⟨e, he⟩ iface hmem
  by_contra hu
  have hu' : usable h.ParseCIDR iface = true := by simpa using hu
  obtain ⟨_, _, _, _, _, _, _, r, -, -, -, -, -, -, -, -, h9⟩ :=
    localSubnetLoop_first h.ParseCIDR ifaces ⟨iface, hmem, hu'⟩
  rw [he] at h9
  exact Except.noConfusion h9

end Discover

namespace Discover

/-! ## Decimal printing -/

theorem digitChar_isDigit (k : Nat) (h : k < 10) : (Nat.digitChar k).isDigit = true := by
  interval_cases k <;> rfl

theorem digitChar_value (k : Nat) (h : k < 10) : (Nat.digitChar k).toNat - 48 = k := by
  interval_cases k <;> rfl

theorem digitsValue_cons (c : Char) (ds : List Char) :
    digitsValue (c :: ds) = (c.toNat - 48) * 10 ^ ds.length + digitsValue ds := by
  unfold digitsValue
  have key : ∀ (l : List Char) (a : Nat),
      List.foldl (fun n c => n * 10 + (c.toNat - 48)) a l =
        a * 10 ^ l.length + List.foldl (fun n c => n * 10 + (c.toNat - 48)) 0 l := by
    intro l
    induction l with
    | nil => intro a; simp
    | cons x xs ih =>
      intro a
      simp only [List.foldl_cons, List.length_cons]
      rw [ih (a * 10 + (x.toNat - 48)), ih (0 * 10 + (x.toNat - 48))]
      ring
  simp only [List.foldl_cons]
  rw [key ds (0 * 10 + (c.toNat - 48))]
  ring

theorem toDigitsCore_spec (fuel : Nat) : ∀ (n : Nat) (ds : List Char), n < fuel →
    (∀ c ∈ ds, c.isDigit = true) →
    (∀ c ∈ Nat.toDigitsCore 10 fuel n ds, c.isDigit = true) ∧
    digitsValue (Nat.toDigitsCore 10 fuel n ds) = n * 10 ^ ds.length + digitsValue ds := by
  induction fuel with
  | zero => intro n ds h; omega
  | succ f ih =>
    intro n ds hn hds
    have hd : n % 10 < 10 := Nat.mod_lt _ (by norm_num)
    simp only [Nat.toDigitsCore]
    by_cases h0 : n / 10 = 0
    · simp only [h0, if_true]
      refine ⟨?_, ?_⟩
      · intro c hc
        rcases List.mem_cons.1 hc with rfl | hc
        · exact digitChar_isDigit _ hd
        · exact hds c hc
      · rw [digitsValue_cons, digitChar_value _ hd]
        have : n % 10 = n := by omega
        rw [this]
    · simp only [h0, if_false]
      have hds' : ∀ c ∈ Nat.digitChar (n % 10) :: ds, c.isDigit = true := by
        intro c hc
        rcases List.mem_cons.1 hc with rfl | hc
        · exact digitChar_isDigit _ hd
        · exact hds c hc
      obtain ⟨h1, h2⟩ := ih (n / 10) (Nat.digitChar (n % 10) :: ds) (by omega) hds'
      refine ⟨h1, ?_⟩
      rw [h2, digitsValue_cons, digitChar_value _ hd, List.length_cons, pow_succ]
      have e : n * 10 ^ ds.length = (10 * (n / 10) + n % 10) * 10 ^ ds.length := by
        rw [Nat.div_add_mod n 10]
      rw [e]
      ring

theorem toDigits_isDigit (n : Nat) : ∀ c ∈ Nat.toDigits 10 n, c.isDigit = true :=
  (toDigitsCore_spec (n + 1) n [] (by omega) (by simp)).1

theorem digitsValue_toDigits (n : Nat) : digitsValue (Nat.toDigits 10 n) = n := by
  have := (toDigitsCore_spec (n + 1) n [] (by omega) (by simp)).2
  simpa [digitsValue] using this

theorem toString_nat_data (n : Nat) : (toString n).data = Nat.toDigits 10 n := rfl

theorem toString_int_data (i : Int) : (toString i).data = match i with
    | Int.ofNat m => Nat.toDigits 10 m
    | Int.negSucc m => '-' :: Nat.toDigits 10 (m + 1) := by
  cases i <;> rfl

theorem takeWhile_digits (l r : List Char) (c : Char) (hl : ∀ x ∈ l, x.isDigit = true)
    (hc : c.isDigit = false) :
    (l ++ c :: r).takeWhile Char.isDigit = l ∧ (l ++ c :: r).dropWhile Char.isDigit = c :: r := by
  induction l with
  | nil => simp [List.takeWhile, List.dropWhile, hc]
  | cons x xs ih =>
    have hx := hl x (List.mem_cons_self _ _)
    have := ih (fun y hy => hl y (List.mem_cons_of_mem _ hy))
    simp [List.takeWhile, List.dropWhile, hx, this]

/-- A decimal number followed by a character that is no digit determines the number and what
follows. -/
theorem toDigits_sep_inj (n m : Nat) (c : Char) (r s : List Char) (hc : c.isDigit = false)
    (h : Nat.toDigits 10 n ++ c :: r = Nat.toDigits 10 m ++ c :: s) : n = m ∧ r = s := by
  have h1 := takeWhile_digits (Nat.toDigits 10 n) r c (toDigits_isDigit n) hc
  have h2 := takeWhile_digits (Nat.toDigits 10 m) s c (toDigits_isDigit m) hc
  rw [h] at h1
  have e1 : Nat.toDigits 10 n = Nat.toDigits 10 m := h1.1.symm.trans h2.1
  have e2 : c :: r = c :: s := h1.2.symm.trans h2.2
  refine ⟨?_, List.tail_eq_of_cons_eq e2⟩
  rw [← digitsValue_toDigits n, ← digitsValue_toDigits m, e1]

/-! ## The scan and its result -/

theorem Sprintf_four (v6 : IP → String) (x y z w : Nat) (port : Int) :
    Sprintf v6 [x, y, z, w] port = dotted [x, y, z, w] ++ ":" ++ toString port := by
  simp [Sprintf, ipString, To4]

theorem Sprintf_data (v6 : IP → String) (x y z w : Nat) (port : Int) :
    (Sprintf v6 [x, y, z, w] port).data =
      Nat.toDigits 10 x ++ '.' :: (Nat.toDigits 10 y ++ '.' :: (Nat.toDigits 10 z ++
        '.' :: (Nat.toDigits 10 w ++ ':' :: (toString port).data))) := by
  simp [Sprintf, ipString, To4, dotted, String.data_append, toString_nat_data]

theorem Sprintf_inj (v6 : IP → String) (x y z w x1 y1 z1 w1 : Nat) (port : Int)
    (h : Sprintf v6 [x, y, z, w] port = Sprintf v6 [x1, y1, z1, w1] port) :
    [x, y, z, w] = [x1, y1, z1, w1] := by
  have hd := congrArg String.data h
  rw [Sprintf_data, Sprintf_data] at hd
  obtain ⟨e1, hd⟩ := toDigits_sep_inj _ _ _ _ _ (by decide) hd
  obtain ⟨e2, hd⟩ := toDigits_sep_inj _ _ _ _ _ (by decide) hd
  obtain ⟨e3, hd⟩ := toDigits_sep_inj _ _ _ _ _ (by decide) hd
  obtain ⟨e4, -⟩ := toDigits_sep_inj _ _ _ _ _ (by decide) hd
  rw [e1, e2, e3, e4]

theorem foldl_probe (h : Host) (port : Int) (order : List IP) (acc : List String) :
    order.foldl (probe h port) acc =
      acc ++ (order.map (fun t => Sprintf h.IPv6String t port)).filter h.Dial := by
  induction order generalizing acc with
  | nil => simp
  | cons t rest ih =>
    simp only [List.foldl_cons, List.map_cons, ih]
    by_cases hd : h.Dial (Sprintf h.IPv6String t port) = true
    · simp [probe, hd, List.filter_cons]
    · simp [probe, hd, List.filter_cons]

theorem Sprintf_injOn_targets (v6 : IP → String) (port : Int) (base S : Nat) :
    ∀ s ∈ (List.range' base S).map ofNat32, ∀ t ∈ (List.range' base S).map ofNat32,
      Sprintf v6 s port = Sprintf v6 t port → s = t := by
  intro s hs t ht hst
  obtain ⟨m, -, rfl⟩ := List.mem_map.1 hs
  obtain ⟨k, -, rfl⟩ := List.mem_map.1 ht
  exact Sprintf_inj v6 _ _ _ _ _ _ _ _ port hst

end Discover

namespace Discover

theorem exampleHost_localSubnet : localSubnet exampleHost = .ok (parsedCIDR4 10 0 0 7 24) := by
  rfl

/-- C8, on a host with a loopback, an interface that is down, one whose addresses cannot be
read, and one with the addresses fe80::1/64 and 10.0.0.7/24: the interface list is read, the
statement of C8 holds, and `localSubnet` returns the address and network of 10.0.0.7/24. -/
theorem localSubnet_exampleHost :
    exampleHost.Interfaces = .ok exampleInterfaces ∧
    ((∃ e, localSubnet exampleHost = .error e) ↔
      ∀ iface ∈ exampleInterfaces, usable exampleHost.ParseCIDR iface = false) ∧
    localSubnet exampleHost = .ok (parsedCIDR4 10 0 0 7 24) :=
  ⟨rfl, (localSubnet_first_usable_interface exampleHost exampleInterfaces rfl).1,
    exampleHost_localSubnet⟩

/-- C2. On a subnet with a prefix of 1 to 32 bits, for every port, every host (which connects
succeed) and every order in which the probes reach the shared slice, `runDiscoveryScan` returns,
given more fuel than the subnet has addresses, and the slice it returns holds exactly the
texts `address:port` of the enumerated addresses whose connect succeeded: its length is their
number, it has no duplicates, it holds no address whose connect failed, and the slice returned
under another order is a permutation of it. -/
theorem runDiscoveryScan_found (h : Host) (sched sched2 : List IP → List IP)
    (a b c d p fuel : Nat) (port : Int)
    (ha : a < 256) (hb : b < 256) (hc : c < 256) (hd : d < 256) (hp1 : 1 ≤ p) (hp : p ≤ 32)
    (hsub : localSubnet h = .ok (parsedCIDR4 a b c d p))
    (hs : ∀ ts, (sched ts).Perm ts) (hs2 : ∀ ts, (sched2 ts).Perm ts)
    (hf : 2 ^ (32 - p) < fuel) :
    ∃ (targets : List IP) (r r2 : ScanReport),
      scanLoop (parsedCIDR4 a b c d p).2 fuel
          (Mask (parsedCIDR4 a b c d p).1 (parsedCIDR4 a b c d p).2.Mask) = some targets ∧
      runDiscoveryScan h sched fuel port = some r ∧
      runDiscoveryScan h sched2 fuel port = some r2 ∧
      (∀ s, s ∈ r.found ↔
        ∃ t ∈ targets, h.Dial (Sprintf h.IPv6String t port) = true ∧
          s = Sprintf h.IPv6String t port) ∧
      r.found.length =
        (targets.filter (fun t => h.Dial (Sprintf h.IPv6String t port))).length ∧
      r.found.Nodup ∧
      (∀ t ∈ targets, h.Dial (Sprintf h.IPv6String t port) = false →
        Sprintf h.IPv6String t port ∉ r.found) ∧
      r.found.Perm r2.found := by
  have hloop := scanLoop_subnet a b c d p fuel ha hb hc hd hp1 hp hf
  have hv : toNat32 [a, b, c, d] < 2 ^ 32 := by rw [toNat32_four]; omega
  have hle : toNat32 [a, b, c, d] / 2 ^ (32 - p) * 2 ^ (32 - p) + 2 ^ (32 - p) ≤ 2 ^ 32 := by
    have := (subnet_arith (toNat32 [a, b, c, d]) p hv hp1 hp).2.1
    have e : (toNat32 [a, b, c, d] / 2 ^ (32 - p) + 1) * 2 ^ (32 - p) =
        toNat32 [a, b, c, d] / 2 ^ (32 - p) * 2 ^ (32 - p) + 2 ^ (32 - p) := by ring
    omega
  generalize htg : (List.range' (toNat32 [a, b, c, d] / 2 ^ (32 - p) * 2 ^ (32 - p))
    (2 ^ (32 - p))).map ofNat32 = targets at hloop
  have hnd : targets.Nodup := htg ▸ range'_map_ofNat32_nodup _ _ hle
  have hinj : ∀ s ∈ targets, ∀ t ∈ targets,
      Sprintf h.IPv6String s port = Sprintf h.IPv6String t port → s = t :=
    htg ▸ Sprintf_injOn_targets h.IPv6String port _ _
  have hrun : ∀ sc : List IP → List IP, runDiscoveryScan h sc fuel port =
      some { reported := none
             probes := targets.map (fun t => Sprintf h.IPv6String t port)
             found := ((sc targets).map (fun t => Sprintf h.IPv6String t port)).filter h.Dial } := by
    intro sc
    simp [runDiscoveryScan, hsub, hloop, foldl_probe]
  have hperm : ∀ sc : List IP → List IP, (∀ ts, (sc ts).Perm ts) →
      (((sc targets).map (fun t => Sprintf h.IPv6String t port)).filter h.Dial).Perm
        ((targets.map (fun t => Sprintf h.IPv6String t port)).filter h.Dial) :=
    fun sc hsc => ((hsc targets).map _).filter _
  have hmem : ∀ s, s ∈ ((sched targets).map (fun t => Sprintf h.IPv6String t port)).filter h.Dial ↔
      ∃ t ∈ targets, h.Dial (Sprintf h.IPv6String t port) = true ∧
        s = Sprintf h.IPv6String t port := by
    intro s
    rw [(hperm sched hs).mem_iff, List.mem_filter, List.mem_map]
    constructor
    · rintro ⟨⟨t, ht, rfl⟩, hdial⟩
      exact ⟨t, ht, hdial, rfl⟩
    · rintro ⟨t, ht, hdial, rfl⟩
      exact ⟨⟨t, ht, rfl⟩, hdial⟩
  refine ⟨targets, _, _, hloop, hrun sched, hrun sched2, hmem, ?_, ?_, ?_, ?_⟩
  · rw [(hperm sched hs).length_eq, List.filter_map, List.length_map]
    rfl
  · exact (hperm sched hs).nodup_iff.2 ((hnd.map_on hinj).filter _)
  · intro t _ hfail hin
    obtain ⟨t1, -, hdial, heq⟩ := (hmem _).1 hin
    rw [heq, hdial] at hfail
    exact Bool.noConfusion hfail
  · exact (hperm sched hs).trans (hperm sched2 hs2).symm

theorem exampleHost_scan_id :
    (runDiscoveryScan exampleHost id 257 3000).map (fun r => r.found) =
      some ["10.0.0.5:3000", "10.0.0.9:3000"] := by
  decide!

theorem exampleHost_scan_reverse :
    (runDiscoveryScan exampleHost List.reverse 257 3000).map (fun r => r.found) =
      some ["10.0.0.9:3000", "10.0.0.5:3000"] := by
  decide!

/-- C2, on the subnet 10.0.0.0/24 with port 3000 where 10.0.0.5 and 10.0.0.9 listen: with
the probes done in launch order the scan returns 10.0.0.5:3000, 10.0.0.9:3000, with the probes
done in the opposite order it returns them the other way round; the result has no duplicates
and the two results are permutations of each other. -/
theorem runDiscoveryScan_found_exampleHost :
    ∃ r r2 : ScanReport,
      runDiscoveryScan exampleHost id 257 3000 = some r ∧
      runDiscoveryScan exampleHost List.reverse 257 3000 = some r2 ∧
      r.found = ["10.0.0.5:3000", "10.0.0.9:3000"] ∧
      r2.found = ["10.0.0.9:3000", "10.0.0.5:3000"] ∧
      r.found.Nodup ∧ r.found.Perm r2.found := by
  obtain ⟨_, r, r2, -, h1, h2, -, -, hnd, -, hperm⟩ :=
    runDiscoveryScan_found exampleHost id List.reverse 10 0 0 7 24 257 3000
      (by norm_num) (by norm_num) (by norm_num) (by norm_num) (by norm_num) (by norm_num)
      exampleHost_localSubnet (fun ts => List.Perm.refl ts) (fun ts => List.reverse_perm ts)
      (by norm_num)
  have e1 := exampleHost_scan_id
  have e2 := exampleHost_scan_reverse
  rw [h1] at e1
  rw [h2] at e2
  exact ⟨r, r2, h1, h2, Option.some.inj e1, Option.some.inj e2, hnd, hperm⟩

end Discover

namespace Discover

/-! ## The `/getIP` handler -/

theorem isDigit_jsonPlain (c : Char) (h : c.isDigit = true) : jsonPlain c := by
  simp only [Char.isDigit, Bool.and_eq_true, decide_eq_true_eq] at h
  obtain ⟨h1, h2⟩ := h
  have h3 : 48 ≤ c.toNat := h1
  have h4 : c.toNat ≤ 57 := h2
  refine ⟨?_, ?_, by omega⟩
  · rintro rfl; exact absurd h3 (by decide)
  · rintro rfl; exact absurd h4 (by decide)

theorem Fprint_body (w : ResponseWriter) (s : String) : (Fprint w s).body = w.body ++ s := by
  unfold Fprint WriteHeader
  cases w.wrote <;> rfl

theorem intercalate_go_data (acc sep : String) (l : List String) :
    (String.intercalate.go acc sep l).data =
      acc.data ++ (l.map (fun a => sep.data ++ a.data)).flatten := by
  induction l generalizing acc with
  | nil => simp [String.intercalate.go]
  | cons a rest ih =>
    simp only [String.intercalate.go, ih, List.map_cons, List.flatten_cons, String.data_append,
      List.append_assoc]

/-- The characters between the brackets of the array text. -/
theorem jsonArrayText_data (l : List String) :
    (jsonArrayText l).data = '[' ::
      ((match l with
        | [] => []
        | a :: rest =>
          ('"' :: (a.data ++ ['"'])) ++
            (rest.map (fun e => ',' :: '"' :: (e.data ++ ['"']))).flatten) ++ [']']) := by
  cases l with
  | nil => rfl
  | cons a rest =>
    simp only [jsonArrayText, String.data_append, List.map_cons, String.intercalate,
      intercalate_go_data, List.map_map]
    simp [Function.comp_def, String.data_append]

theorem writeEntries_body (w : ResponseWriter) (i : Nat) (l : List String) :
    (writeEntries w i l).body.data = w.body.data ++
      (match l with
       | [] => []
       | a :: rest =>
         (if i > 0 then [','] else []) ++ ('"' :: (a.data ++ ['"'])) ++
           (rest.map (fun e => ',' :: '"' :: (e.data ++ ['"']))).flatten) := by
  induction l generalizing w i with
  | nil => simp [writeEntries]
  | cons a rest ih =>
    simp only [writeEntries]
    rw [ih]
    cases rest with
    | nil =>
      by_cases hi : i > 0 <;> simp [hi, Fprint_body, String.data_append]
    | cons b rest2 =>
      by_cases hi : i > 0 <;> simp [hi, Fprint_body, String.data_append]

theorem getIPHandler_body (s : Server) (w : ResponseWriter) :
    (getIPHandler s w).2.body = w.body ++ jsonArrayText s.discoveredIPs := by
  apply String.ext
  simp only [getIPHandler, Fprint_body, String.data_append, writeEntries_body, jsonArrayText_data,
    HeaderSet]
  cases s.discoveredIPs <;> simp

theorem HeaderSet_body (w : ResponseWriter) (k v : String) : (HeaderSet w k v).body = w.body := rfl

theorem finish_body (w : ResponseWriter) : (finish w).body = w.body := by
  rcases hw : w.wrote with _ | ⟨code, hdr⟩ <;> simp [finish, WriteHeader, hw]

theorem serveGetIP_body (s : Server) (method : String) (hm : method ≠ "OPTIONS") :
    (serveGetIP s method).2.body = jsonArrayText s.discoveredIPs := by
  simp only [serveGetIP, corsHandler, hm, if_false, finish_body, getIPHandler_body, HeaderSet_body]
  apply String.ext
  simp [newResponseWriter, String.data_append]

theorem jsonStringTail_quote (r : List Char) : jsonStringTail ('"' :: r) = some ([], r) := by
  rw [jsonStringTail.eq_def]
  simp

theorem jsonStringTail_cons (c : Char) (r : List Char) (h : jsonPlain c) :
    jsonStringTail (c :: r) = (jsonStringTail r).map (fun q => (c :: q.1, q.2)) := by
  obtain ⟨h1, h2, h3⟩ := h
  rw [jsonStringTail.eq_def]
  simp [h1, h2, h3]

theorem jsonStringTail_plain (l r : List Char) (hl : ∀ c ∈ l, jsonPlain c) :
    jsonStringTail (l ++ '"' :: r) = some (l, r) := by
  induction l with
  | nil => exact jsonStringTail_quote r
  | cons c rest ih =>
    rw [List.cons_append, jsonStringTail_cons c _ (hl c (List.mem_cons_self _ _)),
      ih (fun x hx => hl x (List.mem_cons_of_mem _ hx))]
    rfl

theorem jsonMore_close (fuel : Nat) : jsonMore (fuel + 1) [']'] = some [] := by
  rw [jsonMore.eq_def]
  simp

theorem jsonMore_comma (fuel : Nat) (r s rest3 : List Char)
    (h : jsonStringTail r = some (s, rest3)) :
    jsonMore (fuel + 1) (',' :: '"' :: r) =
      (jsonMore fuel rest3).map (fun l => String.mk s :: l) := by
  rw [jsonMore.eq_def]
  simp [h]

theorem jsonMore_entries (es : List String) (hes : ∀ e ∈ es, ∀ c ∈ e.data, jsonPlain c) :
    ∀ fuel, es.length < fuel →
      jsonMore fuel ((es.map (fun e => ',' :: '"' :: (e.data ++ ['"']))).flatten ++ [']']) =
        some es := by
  induction es with
  | nil =>
    intro fuel hf
    obtain ⟨f, rfl⟩ : ∃ f, fuel = f + 1 := ⟨fuel - 1, by simp at hf; omega⟩
    exact jsonMore_close f
  | cons e rest ih =>
    intro fuel hf
    obtain ⟨f, rfl⟩ : ∃ f, fuel = f + 1 := ⟨fuel - 1, by omega⟩
    have h1 := jsonStringTail_plain e.data
      ((rest.map (fun e => ',' :: '"' :: (e.data ++ ['"']))).flatten ++ [']'])
      (hes e (List.mem_cons_self _ _))
    have h2 := ih (fun x hx => hes x (List.mem_cons_of_mem _ hx)) f
      (by simp at hf; omega)
    simp only [List.map_cons, List.flatten_cons, List.cons_append, List.append_assoc,
      List.nil_append]
    simp only [List.cons_append, List.nil_append] at h1
    rw [jsonMore_comma f _ _ _ h1, h2]
    rfl

theorem length_le_flatten_entries (es : List String) :
    es.length ≤ (es.map (fun e => ',' :: '"' :: (e.data ++ ['"']))).flatten.length := by
  induction es with
  | nil => simp
  | cons b bs ih =>
    simp only [List.map_cons, List.flatten_cons, List.length_append, List.length_cons]
    omega

theorem decode_jsonArrayText (l : List String) (hl : ∀ e ∈ l, ∀ c ∈ e.data, jsonPlain c) :
    decodeJSONStrings (jsonArrayText l) = some l := by
  unfold decodeJSONStrings
  rw [jsonArrayText_data]
  cases l with
  | nil => simp
  | cons a rest =>
    have h1 := jsonStringTail_plain a.data
      ((rest.map (fun e => ',' :: '"' :: (e.data ++ ['"']))).flatten ++ [']'])
      (hl a (List.mem_cons_self _ _))
    have h2 := jsonMore_entries rest (fun x hx => hl x (List.mem_cons_of_mem _ hx))
      (((rest.map (fun e => ',' :: '"' :: (e.data ++ ['"']))).flatten ++ [']']).length + 1)
      (by
        have := length_le_flatten_entries rest
        simp only [List.length_append, List.length_cons, List.length_nil]
        omega)
    simp only [List.cons_append, List.append_assoc, List.nil_append] at h1 ⊢
    generalize (rest.map (fun e => ',' :: '"' :: (e.data ++ ['"']))).flatten ++ [']'] = t
      at h1 h2 ⊢
    simp [h1, h2]

theorem isEndpoint_plain (e : String) (h : isEndpoint e) : ∀ c ∈ e.data, jsonPlain c := by
  obtain ⟨x, y, z, w, port, rfl⟩ := h
  rw [← Sprintf_four (fun _ => ""), Sprintf_data, toString_int_data]
  have hdot : jsonPlain '.' := by refine ⟨by decide, by decide, by decide⟩
  have hcol : jsonPlain ':' := by refine ⟨by decide, by decide, by decide⟩
  have hneg : jsonPlain '-' := by refine ⟨by decide, by decide, by decide⟩
  have hdig : ∀ n, ∀ c ∈ Nat.toDigits 10 n, jsonPlain c :=
    fun n c hc => isDigit_jsonPlain c (toDigits_isDigit n c hc)
  intro c hc
  simp only [List.mem_append, List.mem_cons] at hc
  rcases port with m | m
  · simp only at hc
    rcases hc with hc | rfl | hc | rfl | hc | rfl | hc | rfl | hc
    all_goals first | exact hdig _ _ hc | exact hdot | exact hcol
  · simp only [List.mem_cons] at hc
    rcases hc with hc | rfl | hc | rfl | hc | rfl | hc | rfl | rfl | hc
    all_goals first | exact hdig _ _ hc | exact hdot | exact hcol | exact hneg

/-- The CORS headers in the order the middleware sets them. -/
theorem serveGetIP_options (s : Server) :
    serveGetIP s "OPTIONS" =
      (s, { status := 200
            header := [("Access-Control-Allow-Origin", "*"),
                       ("Access-Control-Allow-Methods", "GET, OPTIONS"),
                       ("Access-Control-Allow-Headers", "Content-Type")]
            body := "" }) := by
  simp [serveGetIP, corsHandler, HeaderSet, WriteHeader, finish, newResponseWriter]

theorem Fprint_wrote_some (w : ResponseWriter) (s : String) (x : Nat × List (String × String))
    (h : w.wrote = some x) : (Fprint w s).wrote = some x := by
  simp [Fprint, WriteHeader, h]

theorem writeEntries_wrote (w : ResponseWriter) (i : Nat) (l : List String)
    (x : Nat × List (String × String)) (h : w.wrote = some x) :
    (writeEntries w i l).wrote = some x := by
  induction l generalizing w i with
  | nil => simpa [writeEntries] using h
  | cons a rest ih =>
    simp only [writeEntries]
    apply ih
    apply Fprint_wrote_some
    by_cases hi : i > 0
    · simp only [hi, if_true]; exact Fprint_wrote_some _ _ _ h
    · simp only [hi, if_false]; exact h

theorem getIPHandler_wrote (s : Server) (w : ResponseWriter) (h : w.wrote = none) :
    (getIPHandler s w).2.wrote =
      some (200, (HeaderSet w "Content-Type" "application/json").header) := by
  simp only [getIPHandler]
  apply Fprint_wrote_some
  apply writeEntries_wrote
  simp [Fprint, WriteHeader, HeaderSet, h]

theorem getIPHandler_state (s : Server) (w : ResponseWriter) :
    (getIPHandler s w).1 =
      { discoveredIPs := s.discoveredIPs
        requestCount := AddInt32 s.requestCount 1
        cancels := if AddInt32 s.requestCount 1 ≥ MaxAPIRequests then s.cancels + 1
          else s.cancels } := rfl

theorem serveGetIP_get (s : Server) (method : String) (hm : method ≠ "OPTIONS") :
    serveGetIP s method =
      ({ discoveredIPs := s.discoveredIPs
         requestCount := AddInt32 s.requestCount 1
         cancels := if AddInt32 s.requestCount 1 ≥ MaxAPIRequests then s.cancels + 1
           else s.cancels },
       { status := 200
         header := [("Access-Control-Allow-Origin", "*"),
                    ("Access-Control-Allow-Methods", "GET, OPTIONS"),
                    ("Access-Control-Allow-Headers", "Content-Type"),
                    ("Content-Type", "application/json")]
         body := jsonArrayText s.discoveredIPs }) := by
  have hb := serveGetIP_body s method hm
  have hw : ∀ w : ResponseWriter, w.wrote = none → (finish (getIPHandler s w).2).status = 200 ∧
      (finish (getIPHandler s w).2).header =
        (HeaderSet w "Content-Type" "application/json").header := by
    intro w h
    have := getIPHandler_wrote s w h
    simp [finish, WriteHeader, this]
  refine Prod.ext ?_ ?_
  · simp [serveGetIP, corsHandler, hm, getIPHandler_state]
  · have h3 := hw (HeaderSet (HeaderSet (HeaderSet newResponseWriter
      "Access-Control-Allow-Origin" "*") "Access-Control-Allow-Methods" "GET, OPTIONS")
      "Access-Control-Allow-Headers" "Content-Type") rfl
    have hr : (serveGetIP s method).2 = finish (getIPHandler s (HeaderSet (HeaderSet (HeaderSet
      newResponseWriter "Access-Control-Allow-Origin" "*") "Access-Control-Allow-Methods"
      "GET, OPTIONS") "Access-Control-Allow-Headers" "Content-Type")).2 := by
      simp [serveGetIP, corsHandler, hm]
    rw [hr] at hb ⊢
    have hh : (HeaderSet (HeaderSet (HeaderSet (HeaderSet newResponseWriter
        "Access-Control-Allow-Origin" "*") "Access-Control-Allow-Methods" "GET, OPTIONS")
        "Access-Control-Allow-Headers" "Content-Type") "Content-Type" "application/json").header =
        [("Access-Control-Allow-Origin", "*"), ("Access-Control-Allow-Methods", "GET, OPTIONS"),
         ("Access-Control-Allow-Headers", "Content-Type"), ("Content-Type", "application/json")] := by
      decide
    rcases hf : finish (getIPHandler s (HeaderSet (HeaderSet (HeaderSet
      newResponseWriter "Access-Control-Allow-Origin" "*") "Access-Control-Allow-Methods"
      "GET, OPTIONS") "Access-Control-Allow-Headers" "Content-Type")).2 with ⟨st, hd, bd⟩
    rw [hf] at hb h3
    simp only at hb h3
    rw [hb, h3.1, h3.2, hh]

theorem AddInt32_one (x : Int) (h0 : 0 ≤ x) (h1 : x + 1 < 2 ^ 31) : AddInt32 x 1 = x + 1 := by
  unfold AddInt32
  omega

theorem countGets_cons (m : String) (rest : List String) :
    countGets (m :: rest) = (if m = "OPTIONS" then 0 else 1) + countGets rest := by
  by_cases h : m = "OPTIONS"
  · simp [countGets, h]
  · simp [countGets, h, List.filter_cons]
    omega

theorem countGets_append (l1 l2 : List String) :
    countGets (l1 ++ l2) = countGets l1 + countGets l2 := by
  simp [countGets]

theorem serveAll_append (s : Server) (l1 l2 : List String) :
    (serveAll s (l1 ++ l2)).1 = (serveAll (serveAll s l1).1 l2).1 := by
  induction l1 generalizing s with
  | nil => rfl
  | cons m rest ih =>
    simp only [List.cons_append, serveAll]
    exact ih _

/-- The state after a sequence of requests, as long as the counter stays below `2 ^ 31`. -/
theorem serveAll_state (reqs : List String) :
    ∀ s : Server, 0 ≤ s.requestCount → s.requestCount + countGets reqs < 2 ^ 31 →
      (serveAll s reqs).1 =
        { discoveredIPs := s.discoveredIPs
          requestCount := s.requestCount + countGets reqs
          cancels := s.cancels + ((s.requestCount + countGets reqs - 2).toNat -
            (s.requestCount - 2).toNat) } := by
  induction reqs with
  | nil =>
    intro s _ _
    simp [serveAll, countGets]
  | cons m rest ih =>
    intro s h0 h1
    rw [countGets_cons] at h1 ⊢
    by_cases hm : m = "OPTIONS"
    · subst hm
      simp only [serveAll, serveGetIP_options, if_true] at h1 ⊢
      rw [ih s h0 (by simpa using h1)]
      simp
    · simp only [hm, if_false] at h1 ⊢
      simp only [serveAll, serveGetIP_get s m hm]
      have ha : AddInt32 s.requestCount 1 = s.requestCount + 1 :=
        AddInt32_one _ h0 (by push_cast at h1; omega)
      rw [ha]
      rw [ih _ (by simp only; omega) (by simp only; push_cast at h1 ⊢; omega)]
      simp only [MaxAPIRequests]
      congr 1
      · push_cast; ring
      · split_ifs with h3
        · push_cast
          omega
        · push_cast
          omega

theorem serveAll_fresh (ips reqs : List String) (h : countGets reqs < 2 ^ 31) :
    (serveAll (newServer ips) reqs).1 =
      { discoveredIPs := ips, requestCount := countGets reqs, cancels := countGets reqs - 2 } := by
  rw [serveAll_state reqs (newServer ips) (by simp [newServer])
    (by simp only [newServer]; push_cast; omega)]
  simp only [newServer]
  congr 1
  · simp
  · omega

end Discover

namespace Discover

/-- C3. For every server state whose discovered list holds texts `ip:port` (an IPv4 address in
dotted decimal, a colon, a decimal port) and every request that is no preflight, the body of the
response is the JSON array text of the list: a bracket, the entries in double quotes separated
by single commas, a bracket. It decodes to exactly the list, in order; it is `[]` for the empty
list and `["10.0.0.5:3000","10.0.0.9:3000"]` for that list; the status is 200 and the response
carries `Content-Type: application/json`. -/
theorem getIP_body_is_json_array (s : Server) (method : String) (hm : method ≠ "OPTIONS")
    (hl : ∀ e ∈ s.discoveredIPs, isEndpoint e) :
    (serveGetIP s method).2.body = jsonArrayText s.discoveredIPs ∧
    decodeJSONStrings (serveGetIP s method).2.body = some s.discoveredIPs ∧
    (s.discoveredIPs = [] → (serveGetIP s method).2.body = "[]") ∧
    (s.discoveredIPs = ["10.0.0.5:3000", "10.0.0.9:3000"] →
      (serveGetIP s method).2.body = "[\"10.0.0.5:3000\",\"10.0.0.9:3000\"]") ∧
    (serveGetIP s method).2.status = 200 ∧
    ("Content-Type", "application/json") ∈ (serveGetIP s method).2.header := by
  rw [serveGetIP_get s method hm]
  refine ⟨rfl, decode_jsonArrayText _ (fun e he => isEndpoint_plain e (hl e he)), ?_, ?_, rfl, ?_⟩
  · intro h; simp only [h]; rfl
  · intro h; simp only [h]; decide
  · simp

/-- C3, for the list 10.0.0.5:3000, 10.0.0.9:3000 and a GET request on a fresh server. -/
theorem getIP_body_example :
    ("GET" ≠ "OPTIONS") ∧ (∀ e ∈ ["10.0.0.5:3000", "10.0.0.9:3000"], isEndpoint e) ∧
    (serveGetIP (newServer ["10.0.0.5:3000", "10.0.0.9:3000"]) "GET").2.body =
      "[\"10.0.0.5:3000\",\"10.0.0.9:3000\"]" ∧
    decodeJSONStrings (serveGetIP (newServer ["10.0.0.5:3000", "10.0.0.9:3000"]) "GET").2.body =
      some ["10.0.0.5:3000", "10.0.0.9:3000"] := by
  have hm : "GET" ≠ "OPTIONS" := by decide
  have hl : ∀ e ∈ (newServer ["10.0.0.5:3000", "10.0.0.9:3000"]).discoveredIPs, isEndpoint e := by
    intro e he
    simp only [newServer, List.mem_cons, List.mem_singleton, List.not_mem_nil, or_false] at he
    rcases he with rfl | rfl
    · exact ⟨10, 0, 0, 5, 3000, by decide⟩
    · exact ⟨10, 0, 0, 9, 3000, by decide⟩
  have h := getIP_body_is_json_array (newServer ["10.0.0.5:3000", "10.0.0.9:3000"]) "GET" hm hl
  exact ⟨hm, hl, h.2.2.2.1 rfl, h.2.1⟩

/-- C4. For every server state (any counter, any discovered list), a request to `/getIP` with the
method OPTIONS is answered with status 200 and an empty body, with the three CORS headers set,
and leaves the state as it was: the counter is unchanged and no shutdown is scheduled. -/
theorem options_preflight (s : Server) :
    (serveGetIP s "OPTIONS").2.status = 200 ∧
    (serveGetIP s "OPTIONS").2.body = "" ∧
    (serveGetIP s "OPTIONS").2.header =
      [("Access-Control-Allow-Origin", "*"), ("Access-Control-Allow-Methods", "GET, OPTIONS"),
       ("Access-Control-Allow-Headers", "Content-Type")] ∧
    (serveGetIP s "OPTIONS").1.requestCount = s.requestCount ∧
    (serveGetIP s "OPTIONS").1.cancels = s.cancels ∧
    (serveGetIP s "OPTIONS").1 = s := by
  rw [serveGetIP_options]
  exact ⟨rfl, rfl, rfl, rfl, rfl, rfl⟩

/-- C5. With the request budget `MaxAPIRequests = 3`, for every sequence of requests handled one
after another from a fresh server in which fewer than `2 ^ 31` requests are no preflight (the
range of the `int32` counter; a run of the server ends 100 ms after the third such request and
at the latest some six seconds after its start, long before it has received that many): the
counter ends at the number of such requests and the number of shutdowns scheduled is that number
less two; before each request the counter is the number of earlier such requests, a preflight
leaves the state alone, any other request adds one to the counter and is answered with the full
array, the counter never decreases, and a request schedules a shutdown exactly when it is no
preflight and is the third or a later such request. After three preflights and one GET the
counter is 1 and no shutdown is scheduled. -/
theorem serveAll_counts_gets (ips reqs : List String) (h : countGets reqs < 2 ^ 31) :
    (serveAll (newServer ips) reqs).1.requestCount = countGets reqs ∧
    (serveAll (newServer ips) reqs).1.cancels = countGets reqs - 2 ∧
    (∀ before m after, reqs = before ++ m :: after →
      ∀ st, st = (serveAll (newServer ips) before).1 →
        st.requestCount = countGets before ∧
        st.cancels = countGets before - 2 ∧
        (m = "OPTIONS" → (serveGetIP st m).1 = st) ∧
        (m ≠ "OPTIONS" → (serveGetIP st m).1.requestCount = st.requestCount + 1 ∧
          (serveGetIP st m).2.body = jsonArrayText ips) ∧
        st.requestCount ≤ (serveGetIP st m).1.requestCount ∧
        ((serveGetIP st m).1.cancels = st.cancels + 1 ↔
          m ≠ "OPTIONS" ∧ 3 ≤ countGets (before ++ [m])) ∧
        ((serveGetIP st m).1.cancels = st.cancels ↔
          ¬ (m ≠ "OPTIONS" ∧ 3 ≤ countGets (before ++ [m])))) ∧
    (serveAll (newServer ips) ["OPTIONS", "OPTIONS", "OPTIONS", "GET"]).1 =
      { discoveredIPs := ips, requestCount := 1, cancels := 0 } := by
  refine ⟨?_, ?_, ?_, ?_⟩
  · rw [serveAll_fresh ips reqs h]
  · rw [serveAll_fresh ips reqs h]
  · intro before m after hreqs st hst
    have hc : countGets reqs = countGets before + (if m = "OPTIONS" then 0 else 1) +
        countGets after := by
      rw [hreqs, countGets_append, countGets_cons]; omega
    have hb : countGets before < 2 ^ 31 := by omega
    rw [serveAll_fresh ips before hb] at hst
    subst hst
    have hone : countGets (before ++ [m]) = countGets before + (if m = "OPTIONS" then 0 else 1) := by
      rw [countGets_append, countGets_cons]; simp [countGets]
    refine ⟨rfl, rfl, ?_, ?_, ?_, ?_, ?_⟩
    · intro hm; subst hm; rw [serveGetIP_options]
    · intro hm
      rw [serveGetIP_get _ m hm]
      simp only [hm, if_false] at hc
      exact ⟨AddInt32_one _ (by simp) (by simp only; push_cast; omega), rfl⟩
    · by_cases hm : m = "OPTIONS"
      · subst hm; rw [serveGetIP_options]
      · rw [serveGetIP_get _ m hm]
        simp only [hm, if_false] at hc
        simp only
        rw [AddInt32_one _ (by simp) (by push_cast; omega)]
        omega
    · by_cases hm : m = "OPTIONS"
      · subst hm; rw [serveGetIP_options]; simp
      · rw [serveGetIP_get _ m hm, hone]
        simp only [hm, if_false] at hc hone ⊢
        rw [AddInt32_one _ (by simp) (by push_cast; omega)]
        simp only [MaxAPIRequests]
        split_ifs with h3
        · simp [hm]; omega
        · simp [hm]; omega
    · by_cases hm : m = "OPTIONS"
      · subst hm; rw [serveGetIP_options]; simp
      · rw [serveGetIP_get _ m hm, hone]
        simp only [hm, if_false] at hc hone ⊢
        rw [AddInt32_one _ (by simp) (by push_cast; omega)]
        simp only [MaxAPIRequests]
        split_ifs with h3
        · simp [hm]; omega
        · simp [hm]; omega
  · rw [serveAll_fresh ips _ (by decide)]
    rfl

/-- C5, on two preflights and four GET requests: the counter ends at 4 and two shutdowns were
scheduled (by the third and the fourth GET). -/
theorem serveAll_counts_gets_example :
    countGets ["OPTIONS", "GET", "OPTIONS", "GET", "GET", "GET"] < 2 ^ 31 ∧
    (serveAll (newServer ["10.0.0.5:3000"])
      ["OPTIONS", "GET", "OPTIONS", "GET", "GET", "GET"]).1.requestCount = 4 ∧
    (serveAll (newServer ["10.0.0.5:3000"])
      ["OPTIONS", "GET", "OPTIONS", "GET", "GET", "GET"]).1.cancels = 2 := by
  have h : countGets ["OPTIONS", "GET", "OPTIONS", "GET", "GET", "GET"] < 2 ^ 31 := by decide
  have hc : countGets ["OPTIONS", "GET", "OPTIONS", "GET", "GET", "GET"] = 4 := by decide
  have := serveAll_counts_gets ["10.0.0.5:3000"] _ h
  rw [hc] at this
  exact ⟨h, this.1, this.2.1⟩

end Discover

namespace Discover

/-! ## `main` -/

theorem dropWhile_decomp (p : Char → Bool) (l : List Char) :
    ∃ pre, l = pre ++ l.dropWhile p ∧ (∀ c ∈ pre, p c = true) ∧
      (∀ c, (l.dropWhile p).head? = some c → p c = false) := by
  refine ⟨l.takeWhile p, (List.takeWhile_append_dropWhile p l).symm, ?_, ?_⟩
  · intro c hc
    exact List.mem_takeWhile_imp hc
  · intro c hc
    induction l with
    | nil => simp at hc
    | cons x xs ih =>
      by_cases hx : p x = true
      · rw [List.dropWhile_cons_of_pos hx] at hc
        exact ih hc
      · rw [List.dropWhile_cons_of_neg hx] at hc
        simp only [List.head?_cons, Option.some.injEq] at hc
        subst hc
        simpa using hx

/-- What `strings.Trim` removes and what it leaves. -/
theorem Trim_spec (s cutset : String) :
    ∃ pre post, s.data = pre ++ (Trim s cutset).data ++ post ∧
      (∀ c ∈ pre, c ∈ cutset.data) ∧ (∀ c ∈ post, c ∈ cutset.data) ∧
      (∀ c, (Trim s cutset).data.getLast? = some c → c ∉ cutset.data) ∧
      ((Trim s cutset).data ≠ [] →
        ∀ c, (Trim s cutset).data.head? = some c → c ∉ cutset.data) := by
  obtain ⟨pre, h1, h2, h3⟩ := dropWhile_decomp (fun c => cutset.data.contains c) s.data
  obtain ⟨post, h4, h5, h6⟩ := dropWhile_decomp (fun c => cutset.data.contains c)
    (s.data.dropWhile (fun c => cutset.data.contains c)).reverse
  have h4' := congrArg List.reverse h4
  rw [List.reverse_reverse, List.reverse_append] at h4'
  refine ⟨pre, post.reverse, ?_, ?_, ?_, ?_, ?_⟩
  · simp only [Trim]
    rw [List.append_assoc, ← h4']
    exact h1
  · intro c hc
    simpa using h2 c hc
  · intro c hc
    simpa using h5 c (List.mem_reverse.1 hc)
  · intro c hc
    simp only [Trim, List.getLast?_reverse] at hc
    simpa using h6 c hc
  · intro hne c hc
    simp only [Trim] at hc hne
    have hsub : (s.data.dropWhile (fun c => cutset.data.contains c)).head? = some c := by
      rw [h4', List.head?_append_of_ne_nil _ hne]
      exact hc
    simpa using h3 c hsub

theorem digitChar_eq_zero (k : Nat) (h : k < 10) (h0 : Nat.digitChar k = '0') : k = 0 := by
  have := digitChar_value k h
  rw [h0] at this
  exact this.symm

/-- The digits of a number start with `0` only for the number 0, written `0`. -/
theorem toDigitsCore_head (fuel : Nat) : ∀ (n : Nat) (ds : List Char), n < fuel →
    ∃ c cs, Nat.toDigitsCore 10 fuel n ds = c :: (cs ++ ds) ∧ (c = '0' → n = 0 ∧ cs = []) := by
  induction fuel with
  | zero => intro n ds h; omega
  | succ f ih =>
    intro n ds hn
    have hd : n % 10 < 10 := Nat.mod_lt _ (by norm_num)
    simp only [Nat.toDigitsCore]
    by_cases h0 : n / 10 = 0
    · simp only [h0, if_true]
      refine ⟨Nat.digitChar (n % 10), [], rfl, ?_⟩
      intro hc
      have := digitChar_eq_zero _ hd hc
      exact ⟨by omega, rfl⟩
    · simp only [h0, if_false]
      obtain ⟨c, cs, h1, h2⟩ := ih (n / 10) (Nat.digitChar (n % 10) :: ds) (by omega)
      refine ⟨c, cs ++ [Nat.digitChar (n % 10)], by simp [h1], ?_⟩
      intro hc
      exact absurd (h2 hc).1 h0

theorem toDigits_head (n : Nat) :
    ∃ c cs, Nat.toDigits 10 n = c :: cs ∧ c.isDigit = true ∧ (c = '0' → n = 0 ∧ cs = []) := by
  obtain ⟨c, cs, h1, h2⟩ := toDigitsCore_head (n + 1) n [] (by omega)
  have h1' : Nat.toDigits 10 n = c :: cs := by simpa [Nat.toDigits] using h1
  exact ⟨c, cs, h1', toDigits_isDigit n c (by rw [h1']; exact List.mem_cons_self _ _), h2⟩

/-- `strconv.Atoi` reads back the decimal text of every `int64`. -/
theorem Atoi_toString (z : Int) (hlo : - 2 ^ 63 ≤ z) (hhi : z < 2 ^ 63) :
    Atoi (toString z) = some z := by
  unfold Atoi
  rw [toString_int_data]
  rcases z with n | m
  · obtain ⟨c, cs, h1, h2, -⟩ := toDigits_head n
    have hall : (c :: cs).all Char.isDigit = true := by
      rw [← h1, List.all_eq_true]; exact toDigits_isDigit n
    have hv : digitsValue (c :: cs) = n := by rw [← h1]; exact digitsValue_toDigits n
    have hm : c ≠ '-' := by rintro rfl; exact absurd h2 (by decide)
    have hp : c ≠ '+' := by rintro rfl; exact absurd h2 (by decide)
    simp only [h1, hm, hp, if_false, hall, hv]
    have e : Int.ofNat n = (n : Int) := rfl
    rw [e] at hlo hhi ⊢
    simp
    omega
  · obtain ⟨c, cs, h1, h2, -⟩ := toDigits_head (m + 1)
    have hall : (c :: cs).all Char.isDigit = true := by
      rw [← h1, List.all_eq_true]; exact toDigits_isDigit (m + 1)
    have hv : digitsValue (c :: cs) = m + 1 := by rw [← h1]; exact digitsValue_toDigits (m + 1)
    simp only [if_true, h1, hall, hv]
    have e : Int.negSucc m = - ((m + 1 : Nat) : Int) := rfl
    rw [e] at hlo hhi ⊢
    simp
    omega


theorem HasPrefix_iff (s p : String) : HasPrefix s p = true ↔ ∃ t, s.data = p.data ++ t := by
  unfold HasPrefix
  rw [List.isPrefixOf_iff_prefix]
  constructor
  · rintro ⟨t, ht⟩; exact ⟨t, ht.symm⟩
  · rintro ⟨t, ht⟩; exact ⟨t, ht.symm⟩

theorem parseArgs_cases (urlParse : String → Option URL) (args : List String) :
    (args.length ≤ 1 → parseArgs urlParse args = defaultConfig) ∧
    (∀ name a1 rest, args = name :: a1 :: rest →
      (∃ pre post, a1.data = pre ++ (Trim a1 "\"'").data ++ post ∧
        (∀ c ∈ pre, c = '"' ∨ c = Char.ofNat 39) ∧ (∀ c ∈ post, c = '"' ∨ c = Char.ofNat 39) ∧
        (∀ c, (Trim a1 "\"'").data.getLast? = some c → c ≠ '"' ∧ c ≠ Char.ofNat 39) ∧
        (∀ c, (Trim a1 "\"'").data.head? = some c → c ≠ '"' ∧ c ≠ Char.ofNat 39)) ∧
      (HasPrefix (Trim a1 "\"'") "discover://" = false ∨ urlParse (Trim a1 "\"'") = none →
        parseArgs urlParse args = defaultConfig) ∧
      (∀ u, HasPrefix (Trim a1 "\"'") "discover://" = true →
        urlParse (Trim a1 "\"'") = some u →
        (∀ v, u.QueryGet "port" ≠ "" → Atoi (u.QueryGet "port") = some v →
          (parseArgs urlParse args).scanPort = v) ∧
        (u.QueryGet "port" = "" ∨ Atoi (u.QueryGet "port") = none →
          (parseArgs urlParse args).scanPort = 3000) ∧
        (∀ v, u.QueryGet "apiPort" ≠ "" → Atoi (u.QueryGet "apiPort") = some v →
          (parseArgs urlParse args).apiPort = v) ∧
        (u.QueryGet "apiPort" = "" ∨ Atoi (u.QueryGet "apiPort") = none →
          (parseArgs urlParse args).apiPort = 7370) ∧
        ((parseArgs urlParse args).serveAPI = true ↔ u.QueryGet "serve" = "true"))) := by
  refine ⟨?_, ?_⟩
  · intro h
    match args, h with
    | [], _ => rfl
    | [_], _ => rfl
    | _ :: _ :: _, h => simp at h
  · intro name a1 rest hargs
    subst hargs
    refine ⟨?_, ?_, ?_⟩
    · obtain ⟨pre, post, h1, h2, h3, h4, h5⟩ := Trim_spec a1 "\"'"
      have hq : ∀ c : Char, c ∈ ("\"'" : String).data ↔ c = '"' ∨ c = Char.ofNat 39 := by
        intro c
        show c ∈ ['"', Char.ofNat 39] ↔ _
        simp
      refine ⟨pre, post, h1, fun c hc => (hq c).1 (h2 c hc), fun c hc => (hq c).1 (h3 c hc), ?_, ?_⟩
      · intro c hc
        have := h4 c hc
        rw [hq] at this
        push_neg at this
        exact this
      · intro c hc
        have hne : (Trim a1 "\"'").data ≠ [] := by
          intro h0; rw [h0] at hc; simp at hc
        have := h5 hne c hc
        rw [hq] at this
        push_neg at this
        exact this
    · rintro (h | h)
      · simp [parseArgs, h, defaultConfig, DefaultScanPort, DefaultAPIPort]
      · simp only [parseArgs, h, defaultConfig, DefaultScanPort, DefaultAPIPort]
        split_ifs <;> rfl
    · intro u hp hu
      simp only [parseArgs, hp, hu, if_true, DefaultScanPort, DefaultAPIPort]
      refine ⟨?_, ?_, ?_, ?_, ?_⟩
      · intro v h1 h2; simp [h1, h2]
      · rintro (h | h)
        · simp [h]
        · by_cases h1 : u.QueryGet "port" = "" <;> simp [h1, h]
      · intro v h1 h2; simp [h1, h2]
      · rintro (h | h)
        · simp [h]
        · by_cases h1 : u.QueryGet "apiPort" = "" <;> simp [h1, h]
      · by_cases h1 : u.QueryGet "serve" = "true" <;> simp [h1]

/-- C6. Reading the command line never fails. Without an argument the configuration is the
default one (scan port 3000, API port 7370, no server). With an argument, the double and single
quote characters at its two ends are removed first (what is left neither starts nor ends with
one); it starts with `discover://` exactly when `strings.HasPrefix` says so; if what is left does
not start with `discover://` or `url.Parse` rejects it, the configuration is the default one;
otherwise the scan port (the API port) is the value of the query parameter `port` (`apiPort`)
when it is not empty and `strconv.Atoi` accepts it, and the default otherwise, and the server is
requested exactly when the parameter `serve` is `true`. `strconv.Atoi` returns the integer value:
it reads back the decimal text of every 64-bit integer, and rejects the empty text, a text with
a letter, and a number out of range. -/
theorem parseArgs_never_fails (urlParse : String → Option URL) (args : List String) :
    (args.length ≤ 1 → parseArgs urlParse args = defaultConfig) ∧
    (∀ name a1 rest, args = name :: a1 :: rest →
      (∃ pre post, a1.data = pre ++ (Trim a1 "\"'").data ++ post ∧
        (∀ c ∈ pre, c = '"' ∨ c = Char.ofNat 39) ∧ (∀ c ∈ post, c = '"' ∨ c = Char.ofNat 39) ∧
        (∀ c, (Trim a1 "\"'").data.getLast? = some c → c ≠ '"' ∧ c ≠ Char.ofNat 39) ∧
        (∀ c, (Trim a1 "\"'").data.head? = some c → c ≠ '"' ∧ c ≠ Char.ofNat 39)) ∧
      (HasPrefix (Trim a1 "\"'") "discover://" = true ↔
        ∃ t, (Trim a1 "\"'").data = "discover://".data ++ t) ∧
      (HasPrefix (Trim a1 "\"'") "discover://" = false ∨ urlParse (Trim a1 "\"'") = none →
        parseArgs urlParse args = defaultConfig) ∧
      (∀ u, HasPrefix (Trim a1 "\"'") "discover://" = true →
        urlParse (Trim a1 "\"'") = some u →
        (∀ v, u.QueryGet "port" ≠ "" → Atoi (u.QueryGet "port") = some v →
          (parseArgs urlParse args).scanPort = v) ∧
        (u.QueryGet "port" = "" ∨ Atoi (u.QueryGet "port") = none →
          (parseArgs urlParse args).scanPort = 3000) ∧
        (∀ v, u.QueryGet "apiPort" ≠ "" → Atoi (u.QueryGet "apiPort") = some v →
          (parseArgs urlParse args).apiPort = v) ∧
        (u.QueryGet "apiPort" = "" ∨ Atoi (u.QueryGet "apiPort") = none →
          (parseArgs urlParse args).apiPort = 7370) ∧
        ((parseArgs urlParse args).serveAPI = true ↔ u.QueryGet "serve" = "true"))) ∧
    (∀ z : Int, - 2 ^ 63 ≤ z → z < 2 ^ 63 → Atoi (toString z) = some z) ∧
    Atoi "" = none ∧ Atoi "80a" = none ∧ Atoi "9223372036854775808" = none := by
  obtain ⟨h1, h2⟩ := parseArgs_cases urlParse args
  refine ⟨h1, ?_, Atoi_toString, by decide, by decide, by decide⟩
  intro name a1 rest hargs
  obtain ⟨ha, hb, hc⟩ := h2 name a1 rest hargs
  exact ⟨ha, HasPrefix_iff _ _, hb, hc⟩

/-- C6, on concrete arguments: the quoted URI `discover://scan?port=8080&serve=true` gives
scan port 8080, the default API port 7370 and a server; a URI that `url.Parse` rejects, an
argument without the `discover://` scheme, and no argument at all give the default
configuration. -/
theorem parseArgs_reads_example_uri :
    parseArgs exampleURLParse ["discover", "'discover://scan?port=8080&serve=true'"] =
      { scanPort := 8080, apiPort := 7370, serveAPI := true } ∧
    parseArgs exampleURLParse ["discover", "\"discover://scan?port=80"] = defaultConfig ∧
    parseArgs exampleURLParse ["discover", "scan?port=8080&serve=true"] = defaultConfig ∧
    parseArgs exampleURLParse ["discover"] = defaultConfig := by
  have h := parseArgs_never_fails exampleURLParse
    ["discover", "'discover://scan?port=8080&serve=true'"]
  obtain ⟨-, -, -, hu⟩ := h.2.1 "discover" "'discover://scan?port=8080&serve=true'" [] rfl
  have hp : HasPrefix (Trim "'discover://scan?port=8080&serve=true'" "\"'") "discover://" = true := by
    decide
  have hparse : exampleURLParse (Trim "'discover://scan?port=8080&serve=true'" "\"'") =
      some exampleURL := by
    have e : Trim "'discover://scan?port=8080&serve=true'" "\"'" =
        "discover://scan?port=8080&serve=true" := by decide
    rw [e]
    rfl
  obtain ⟨hs1, -, -, ha2, hserve⟩ := hu exampleURL hp hparse
  have e1 := hs1 8080 (by decide) (h.2.2.1 8080 (by norm_num) (by norm_num))
  have e2 := ha2 (Or.inl (by decide))
  have e3 := hserve.2 (by decide)
  have h' := parseArgs_never_fails exampleURLParse ["discover", "\"discover://scan?port=80"]
  have hnone : exampleURLParse (Trim "\"discover://scan?port=80" "\"'") = none := by
    have e : Trim "\"discover://scan?port=80" "\"'" = "discover://scan?port=80" := by decide
    rw [e]
    simp [exampleURLParse]
  have d1 := (h'.2.1 "discover" "\"discover://scan?port=80" [] rfl).2.2.1 (Or.inr hnone)
  have h'' := parseArgs_never_fails exampleURLParse ["discover", "scan?port=8080&serve=true"]
  have d2 := (h''.2.1 "discover" "scan?port=8080&serve=true" [] rfl).2.2.1 (Or.inl (by decide))
  have d3 := (parseArgs_never_fails exampleURLParse ["discover"]).1 (by decide)
  refine ⟨?_, d1, d2, d3⟩
  rcases hc : parseArgs exampleURLParse ["discover", "'discover://scan?port=8080&serve=true'"]
    with ⟨sp, ap, sv⟩
  rw [hc] at e1 e2 e3
  simp only at e1 e2 e3
  rw [e1, e2, e3]

theorem serveAll_discoveredIPs (s : Server) (reqs : List String) :
    (serveAll s reqs).1.discoveredIPs = s.discoveredIPs := by
  induction reqs generalizing s with
  | nil => rfl
  | cons m rest ih =>
    simp only [serveAll]
    rw [ih]
    by_cases hm : m = "OPTIONS"
    · subst hm; rw [serveGetIP_options]
    · rw [serveGetIP_get s m hm]

/-- C7 as stated fails: on a host without interfaces, with `serve=true`, the run reports the
error and probes nothing, but `startAPIServer` is still called (on port 7370, with an empty
list to serve) and the process ends with status 0. -/
theorem mainFrom_isolatedHost_serves :
    mainFrom isolatedHost id 0 { scanPort := 3000, apiPort := 7370, serveAPI := true } =
      some { scan := { reported := some "no active IPv4 interface found", probes := [], found := [] }
             served := some (7370, newServer [])
             exitStatus := 0 } := by
  decide

/-- C7, as amended: when `localSubnet` returns an error, for every configuration the run
reports that error, launches no probe and finds nothing; `startAPIServer` is called exactly
when `serve=true`, with the configured API port and the empty list, and the process ends with
status 0; the server started on the empty list answers every request that is no preflight,
after any earlier requests, with status 200 and the body `[]`. -/
theorem mainFrom_localSubnet_error (h : Host) (sched : List IP → List IP) (fuel : Nat)
    (cfg : Config) (e : String) (he : localSubnet h = .error e) :
    mainFrom h sched fuel cfg =
      some { scan := { reported := some e, probes := [], found := [] }
             served := if cfg.serveAPI then some (cfg.apiPort, newServer []) else none
             exitStatus := 0 } ∧
    (∀ reqs m, m ≠ "OPTIONS" →
      (serveGetIP (serveAll (newServer []) reqs).1 m).2.status = 200 ∧
      (serveGetIP (serveAll (newServer []) reqs).1 m).2.body = "[]") := by
  refine ⟨by simp [mainFrom, runDiscoveryScan, he], ?_⟩
  intro reqs m hm
  rw [serveGetIP_get _ m hm, serveAll_discoveredIPs]
  exact ⟨rfl, rfl⟩

/-- C7, as amended, on a host without interfaces and a configuration without server; the
server on the empty list answers a GET after a GET and a preflight with `[]`. -/
theorem mainFrom_isolatedHost_no_serve :
    localSubnet isolatedHost = .error "no active IPv4 interface found" ∧
    mainFrom isolatedHost List.reverse 9 { scanPort := 8080, apiPort := 7370, serveAPI := false } =
      some { scan := { reported := some "no active IPv4 interface found", probes := [], found := [] }
             served := none
             exitStatus := 0 } ∧
    (serveGetIP (serveAll (newServer []) ["GET", "OPTIONS"]).1 "GET").2.body = "[]" :=
  ⟨rfl, (mainFrom_localSubnet_error isolatedHost List.reverse 9 _ _ rfl).1,
    ((mainFrom_localSubnet_error isolatedHost List.reverse 9
      { scanPort := 8080, apiPort := 7370, serveAPI := false } _ rfl).2
        ["GET", "OPTIONS"] "GET" (by decide)).2⟩

end Discover

namespace Cluster

/-! ## Packing and unpacking -/

theorem readUint32_putUint32 (v : Nat) (rest : List Nat) (h : v < 2 ^ 32) :
    readUint32 (putUint32 v ++ rest) = some (v, rest) := by
  simp only [putUint32, List.cons_append, List.nil_append, readUint32]
  congr 2
  omega

theorem extract_contents (dir : List DirFile) (tail : List Nat)
    (hsize : ∀ f ∈ dir, f.Size = f.Content.length) :
    extract (dir.map metadataOf)
        ((dir.map (fun f => f.Content)).flatten ++ tail) =
      .ok (dir.map (fun f => (f.Path, f.Content)), tail) := by
  induction dir with
  | nil => rfl
  | cons f rest ih =>
    have hf := hsize f (List.mem_cons_self _ _)
    have ih' := ih (fun g hg => hsize g (List.mem_cons_of_mem _ hg))
    simp only [List.map_cons, List.flatten_cons, List.append_assoc, extract, metadataOf, hf,
      Int.toNat_ofNat]
    have h1 : ¬ (f.Content ++ ((rest.map (fun f => f.Content)).flatten ++ tail)).length <
        f.Content.length := by simp
    simp only [metadataOf] at ih'
    simp only [h1, if_false, List.drop_left, List.take_left, ih']

theorem packDirectory_metadata (marshal : List FileMetadata → List Nat) (dir : List DirFile) :
    packDirectory marshal dir =
      putUint32 ((marshal (dir.map metadataOf)).length % 2 ^ 32) ++ marshal (dir.map metadataOf) ++
        putUint32 SEPARATOR ++ (dir.map (fun f => f.Content)).flatten := rfl


/-! ## `unicode/utf8` -/

theorem decodeRune_take4 (l : List Nat) : decodeRune (l.take 4) = decodeRune l := by
  rcases l with _ | ⟨s0, _ | ⟨s1, _ | ⟨s2, _ | ⟨s3, t⟩⟩⟩⟩ <;> rfl

theorem decodeRune_stable (l : List Nat) (c k : Nat) (h : decodeRune l = (c, k))
    (hv : ¬ (c = RuneError ∧ k = 1)) (hne : l ≠ []) :
    1 ≤ k ∧ k ≤ l.length ∧ ∀ Y, decodeRune (l.take k ++ Y) = (c, k) := by
  have bad : (RuneError, 1) = (c, k) → False := by
    intro e
    simp only [Prod.mk.injEq] at e
    exact hv ⟨e.1.symm, e.2.symm⟩
  rcases l with _ | ⟨s0, t⟩
  · exact absurd rfl hne
  by_cases h1 : s0 < 0x80
  · simp only [decodeRune, h1, if_true, Prod.mk.injEq] at h
    obtain ⟨rfl, rfl⟩ := h
    exact ⟨le_refl _, by simp, fun Y => by simp [decodeRune, h1]⟩
  by_cases h2 : s0 < 0xC2
  · simp only [decodeRune, h1, h2, if_true, if_false] at h
    exact (bad h).elim
  by_cases h3 : s0 < 0xE0
  · rcases t with _ | ⟨s1, t⟩
    · simp only [decodeRune, h1, h2, h3, if_true, if_false] at h
      exact (bad h).elim
    simp only [decodeRune, h1, h2, h3, if_true, if_false] at h
    by_cases h6 : isCont s1 = true
    · simp only [h6, if_true, Prod.mk.injEq] at h
      obtain ⟨rfl, rfl⟩ := h
      refine ⟨by omega, by simp, fun Y => ?_⟩
      simp only [List.take, List.cons_append, List.nil_append, decodeRune, h1, h2, h3, h6,
        if_true, if_false]
    · simp only [h6] at h
      exact (bad h).elim
  by_cases h4 : s0 < 0xF0
  · rcases t with _ | ⟨s1, _ | ⟨s2, t⟩⟩
    · simp only [decodeRune, h1, h2, h3, h4, if_true, if_false] at h
      exact (bad h).elim
    · simp only [decodeRune, h1, h2, h3, h4, if_true, if_false] at h
      exact (bad h).elim
    simp only [decodeRune, h1, h2, h3, h4, if_true, if_false] at h
    by_cases h6 : (if s0 = 0xE0 then 0xA0 else 0x80) ≤ s1 ∧ s1 ≤ (if s0 = 0xED then 0x9F else 0xBF) ∧
        isCont s2 = true
    · rw [if_pos h6] at h
      simp only [Prod.mk.injEq] at h
      obtain ⟨rfl, rfl⟩ := h
      refine ⟨by omega, by simp, fun Y => ?_⟩
      simp only [List.take, List.cons_append, List.nil_append, decodeRune, h1, h2, h3, h4,
        if_true, if_false]
      rw [if_pos h6]
    · rw [if_neg h6] at h
      exact (bad h).elim
  by_cases h5 : s0 < 0xF5
  · rcases t with _ | ⟨s1, _ | ⟨s2, _ | ⟨s3, t⟩⟩⟩
    · simp only [decodeRune, h1, h2, h3, h4, h5, if_true, if_false] at h
      exact (bad h).elim
    · simp only [decodeRune, h1, h2, h3, h4, h5, if_true, if_false] at h
      exact (bad h).elim
    · simp only [decodeRune, h1, h2, h3, h4, h5, if_true, if_false] at h
      exact (bad h).elim
    simp only [decodeRune, h1, h2, h3, h4, h5, if_true, if_false] at h
    by_cases h6 : (if s0 = 0xF0 then 0x90 else 0x80) ≤ s1 ∧ s1 ≤ (if s0 = 0xF4 then 0x8F else 0xBF) ∧
        isCont s2 = true ∧ isCont s3 = true
    · rw [if_pos h6] at h
      simp only [Prod.mk.injEq] at h
      obtain ⟨rfl, rfl⟩ := h
      refine ⟨by omega, by simp, fun Y => ?_⟩
      simp only [List.take, List.cons_append, List.nil_append, decodeRune, h1, h2, h3, h4, h5,
        if_true, if_false]
      rw [if_pos h6]
    · rw [if_neg h6] at h
      exact (bad h).elim
  · simp only [decodeRune, h1, h2, h3, h4, h5, if_true, if_false] at h
    exact (bad h).elim


theorem or_shift6 (b c : Nat) (hc : c < 64) : b <<< 6 ||| c = b * 64 + c := by
  rw [Nat.shiftLeft_eq, Nat.mul_comm b, ← Nat.mul_add_lt_is_or (by simpa using hc)]

theorem or_shift12 (a b c : Nat) (hb : b < 64) (hc : c < 64) :
    a <<< 12 ||| b <<< 6 ||| c = a * 4096 + b * 64 + c := by
  rw [Nat.or_assoc, or_shift6 b c hc, Nat.shiftLeft_eq, Nat.mul_comm a,
    ← Nat.mul_add_lt_is_or (by norm_num; omega)]
  norm_num
  omega

theorem or_shift18 (a b c d : Nat) (hb : b < 64) (hc : c < 64) (hd : d < 64) :
    a <<< 18 ||| b <<< 12 ||| c <<< 6 ||| d = a * 262144 + b * 4096 + c * 64 + d := by
  rw [Nat.or_assoc, Nat.or_assoc, ← Nat.or_assoc (b <<< 12), or_shift12 b c d hc hd,
    Nat.shiftLeft_eq, Nat.mul_comm a, ← Nat.mul_add_lt_is_or (by norm_num; omega)]
  norm_num
  omega

theorem and_3F (s : Nat) (h : isCont s = true) : s &&& 0x3F = s - 0x80 := by
  have key : ∀ s < 0xC0, 0x80 ≤ s → s &&& 0x3F = s - 0x80 := by decide!
  simp only [isCont, Bool.and_eq_true, decide_eq_true_eq] at h
  exact key s (by omega) h.1

theorem and_3F_range (s : Nat) (h1 : 0x80 ≤ s) (h2 : s ≤ 0xBF) : s &&& 0x3F = s - 0x80 := by
  have key : ∀ s < 0xC0, 0x80 ≤ s → s &&& 0x3F = s - 0x80 := by decide!
  exact key s (by omega) h1

/-- The only encodings `utf8.DecodeRune` reads as U+2028 or U+2029 are the three bytes
`utf8.AppendRune` writes for them. -/
theorem decodeRune_lineSep (l : List Nat) (c k : Nat) (h : decodeRune l = (c, k))
    (hc : c = 0x2028 ∨ c = 0x2029) : k = 3 ∧ l.take 3 = encodeRune c := by
  have bad : (RuneError, 1) = (c, k) → False := by
    intro e
    simp only [Prod.mk.injEq, RuneError] at e
    omega
  rcases l with _ | ⟨s0, t⟩
  · simp only [decodeRune, Prod.mk.injEq, RuneError] at h
    omega
  by_cases h1 : s0 < 0x80
  · simp only [decodeRune, h1, if_true, Prod.mk.injEq] at h
    omega
  by_cases h2 : s0 < 0xC2
  · simp only [decodeRune, h1, h2, if_true, if_false] at h
    exact (bad h).elim
  by_cases h3 : s0 < 0xE0
  · rcases t with _ | ⟨s1, t⟩
    · simp only [decodeRune, h1, h2, h3, if_true, if_false] at h
      exact (bad h).elim
    simp only [decodeRune, h1, h2, h3, if_true, if_false] at h
    by_cases h6 : isCont s1 = true
    · simp only [h6, if_true, Prod.mk.injEq] at h
      have e0 : ∀ s < 0xE0, 0xC0 ≤ s → s &&& 0x1F = s - 0xC0 := by decide!
      rw [e0 s0 (by omega) (by omega), and_3F s1 h6, or_shift6] at h
      · simp only [isCont, Bool.and_eq_true, decide_eq_true_eq] at h6
        omega
      · simp only [isCont, Bool.and_eq_true, decide_eq_true_eq] at h6
        omega
    · simp only [h6] at h
      exact (bad h).elim
  by_cases h4 : s0 < 0xF0
  · rcases t with _ | ⟨s1, _ | ⟨s2, t⟩⟩
    · simp only [decodeRune, h1, h2, h3, h4, if_true, if_false] at h
      exact (bad h).elim
    · simp only [decodeRune, h1, h2, h3, h4, if_true, if_false] at h
      exact (bad h).elim
    simp only [decodeRune, h1, h2, h3, h4, if_true, if_false] at h
    by_cases h6 : (if s0 = 0xE0 then 0xA0 else 0x80) ≤ s1 ∧ s1 ≤ (if s0 = 0xED then 0x9F else 0xBF) ∧
        isCont s2 = true
    · rw [if_pos h6] at h
      simp only [Prod.mk.injEq] at h
      obtain ⟨g1, g2, g3⟩ := h6
      have e0 : ∀ s < 0xF0, 0xE0 ≤ s → s &&& 0x0F = s - 0xE0 := by decide!
      have r1 : 0x80 ≤ s1 := by split_ifs at g1 <;> omega
      have r2 : s1 ≤ 0xBF := by split_ifs at g2 <;> omega
      have g3' := g3
      simp only [isCont, Bool.and_eq_true, decide_eq_true_eq] at g3'
      rw [e0 s0 (by omega) (by omega), and_3F_range s1 r1 r2, and_3F s2 g3,
        or_shift12 _ _ _ (by omega) (by omega)] at h
      refine ⟨h.2.symm, ?_⟩
      rcases hc with rfl | rfl
      · have a0 : s0 = 0xE2 := by omega
        have a1 : s1 = 0x80 := by omega
        have a2 : s2 = 0xA8 := by omega
        subst a0 a1 a2
        rfl
      · have a0 : s0 = 0xE2 := by omega
        have a1 : s1 = 0x80 := by omega
        have a2 : s2 = 0xA9 := by omega
        subst a0 a1 a2
        rfl
    · rw [if_neg h6] at h
      exact (bad h).elim
  by_cases h5 : s0 < 0xF5
  · rcases t with _ | ⟨s1, _ | ⟨s2, _ | ⟨s3, t⟩⟩⟩
    · simp only [decodeRune, h1, h2, h3, h4, h5, if_true, if_false] at h
      exact (bad h).elim
    · simp only [decodeRune, h1, h2, h3, h4, h5, if_true, if_false] at h
      exact (bad h).elim
    · simp only [decodeRune, h1, h2, h3, h4, h5, if_true, if_false] at h
      exact (bad h).elim
    simp only [decodeRune, h1, h2, h3, h4, h5, if_true, if_false] at h
    by_cases h6 : (if s0 = 0xF0 then 0x90 else 0x80) ≤ s1 ∧ s1 ≤ (if s0 = 0xF4 then 0x8F else 0xBF) ∧
        isCont s2 = true ∧ isCont s3 = true
    · rw [if_pos h6] at h
      simp only [Prod.mk.injEq] at h
      obtain ⟨g1, g2, g3, g4⟩ := h6
      have e0 : ∀ s < 0xF5, 0xF0 ≤ s → s &&& 0x07 = s - 0xF0 := by decide!
      have r1 : 0x80 ≤ s1 := by split_ifs at g1 <;> omega
      have r2 : s1 ≤ 0xBF := by split_ifs at g2 <;> omega
      have g3' := g3
      have g4' := g4
      simp only [isCont, Bool.and_eq_true, decide_eq_true_eq] at g3' g4'
      rw [e0 s0 (by omega) (by omega), and_3F_range s1 r1 r2, and_3F s2 g3, and_3F s3 g4,
        or_shift18 _ _ _ _ (by omega) (by omega) (by omega)] at h
      exfalso
      split_ifs at g1 <;> omega
    · rw [if_neg h6] at h
      exact (bad h).elim
  · simp only [decodeRune, h1, h2, h3, h4, h5, if_true, if_false] at h
    exact (bad h).elim


/-! ## `encoding/json`: strings -/

theorem unquote_escapeASCII (b : Nat) (hb : b < 0x80) (g : Nat) (Y : List Nat) :
    unquoteTail (g + 1) (escapeASCII b ++ Y) =
      (unquoteTail g Y).map (fun r => (b :: r.1, r.2)) := by
  interval_cases b <;> rfl

theorem unquote_lineSep (c : Nat) (hc : c = 0x2028 ∨ c = 0x2029) (g : Nat) (Y : List Nat) :
    unquoteTail (g + 1) (ascii "\\u202" ++ [hexDigit (c &&& 0xF)] ++ Y) =
      (unquoteTail g Y).map (fun r => (encodeRune c ++ r.1, r.2)) := by
  rcases hc with rfl | rfl <;> rfl

theorem escapeASCII_length (b : Nat) : 1 ≤ (escapeASCII b).length := by
  unfold escapeASCII
  split_ifs <;> simp [ascii]

theorem unquote_copy (b : Nat) (rest : List Nat) (hb : ¬ b < 0x80) (c k : Nat)
    (hd : decodeRune (b :: rest) = (c, k)) (hv : ¬ (c = RuneError ∧ k = 1)) (g : Nat)
    (Y : List Nat) :
    unquoteTail (g + 1) ((b :: rest).take k ++ Y) =
      (unquoteTail g Y).map (fun r => ((b :: rest).take k ++ r.1, r.2)) := by
  obtain ⟨k1, k2, hs⟩ := decodeRune_stable (b :: rest) c k hd hv (by simp)
  have hlen : ((b :: rest).take k).length = k := by
    rw [List.length_take]; exact Nat.min_eq_left k2
  have hs' := hs Y
  obtain ⟨k', rfl⟩ : ∃ k', k = k' + 1 := ⟨k - 1, by omega⟩
  have e : (b :: rest).take (k' + 1) ++ Y = b :: (rest.take k' ++ Y) := rfl
  rw [e] at hs' ⊢
  have e2 : (b :: (rest.take k' ++ Y)).drop (k' + 1) = Y := by
    have : (rest.take k').length = k' := by simpa using hlen
    simp only [List.drop_succ_cons]
    exact List.drop_left' this
  have e3 : (b :: (rest.take k' ++ Y)).take (k' + 1) = b :: rest.take k' := by
    have : (rest.take k').length = k' := by simpa using hlen
    simp only [List.take_succ_cons]
    congr 1
    exact List.take_left' this
  have n1 : b ≠ 0x22 := by omega
  have n2 : b ≠ 0x5C := by omega
  have n3 : ¬ b < 0x20 := by omega
  rw [unquoteTail.eq_def]
  simp only [n1, n2, n3, hb, if_false, hs', hv, e2, e3]
  rfl

/-- The string `encoding/json` reads from what it wrote for a valid UTF-8 string is that
string. -/
theorem unquote_appendStringLoop (X : List Nat) : ∀ (f : Nat) (s : List Nat) (g v : Nat),
    s.length < f → (appendStringLoop f s).length < g → validUTF8Loop v s = true →
    unquoteTail g (appendStringLoop f s ++ 0x22 :: X) = some (s, X) := by
  intro f
  induction f with
  | zero => intro s g v h; omega
  | succ f ih =>
    intro s g v hf hg hv
    obtain ⟨g, rfl⟩ : ∃ g', g = g' + 1 := ⟨g - 1, by omega⟩
    rcases s with _ | ⟨b, rest⟩
    · rfl
    obtain ⟨v, rfl⟩ : ∃ v', v = v' + 1 := by
      rcases v with _ | v
      · simp [validUTF8Loop] at hv
      · exact ⟨v, rfl⟩
    simp only [validUTF8Loop] at hv
    rw [appendStringLoop] at hg ⊢
    have hrest : rest.length < f := by simp only [List.length_cons] at hf; omega
    by_cases hb : b < 0x80
    · simp only [hb, if_true] at hg ⊢
      have hd : decodeRune (b :: rest) = (b, 1) := by simp [decodeRune, hb]
      rw [hd, if_neg (by simp only [RuneError]; omega)] at hv
      simp only [List.drop_succ_cons, List.drop_zero] at hv
      have hl := escapeASCII_length b
      rw [List.length_append] at hg
      rw [List.append_assoc, unquote_escapeASCII b hb, ih rest g v hrest (by omega) hv]
      rfl
    · simp only [hb, if_false] at hg ⊢
      rw [decodeRune_take4] at hg ⊢
      obtain ⟨c, k, hd⟩ : ∃ c k, decodeRune (b :: rest) = (c, k) := ⟨_, _, rfl⟩
      rw [hd] at hv hg ⊢
      simp only at hv hg ⊢
      by_cases hbad : c = RuneError ∧ k = 1
      · simp [hbad] at hv
      simp only [hbad, if_false] at hv hg ⊢
      obtain ⟨k1, k2, -⟩ := decodeRune_stable (b :: rest) c k hd hbad (by simp)
      have hdrop : ((b :: rest).drop k).length < f := by
        rw [List.length_drop]; simp only [List.length_cons] at hf ⊢; omega
      by_cases hls : c = 0x2028 ∨ c = 0x2029
      · simp only [hls, if_true] at hg ⊢
        obtain ⟨rfl, e⟩ := decodeRune_lineSep (b :: rest) c k hd hls
        rw [List.length_append] at hg
        have h6 : (ascii "\\u202" ++ [hexDigit (c &&& 0xF)]).length = 6 := rfl
        rw [List.append_assoc, unquote_lineSep c hls,
          ih _ g v hdrop (by omega) hv]
        simp only [Option.map_some']
        rw [← e, List.take_append_drop]
      · simp only [hls, if_false] at hg ⊢
        rw [List.length_append] at hg
        have hlen : ((b :: rest).take k).length = k := by
          rw [List.length_take]; exact Nat.min_eq_left k2
        rw [List.append_assoc, unquote_copy b rest hb c k hd hbad,
          ih _ g v hdrop (by omega) hv]
        simp only [Option.map_some']
        rw [List.take_append_drop]

theorem validUTF8Loop_mono : ∀ (v : Nat) (s : List Nat), validUTF8Loop v s = true →
    validUTF8Loop (v + 1) s = true := by
  intro v
  induction v with
  | zero => intro s h; simp [validUTF8Loop] at h
  | succ v ih =>
    intro s h
    rcases s with _ | ⟨b, rest⟩
    · rfl
    simp only [validUTF8Loop] at h ⊢
    split_ifs at h ⊢ with h1
    exact ih _ h

theorem unquote_appendString (s X : List Nat) (g : Nat) (hv : validUTF8 s = true)
    (hg : (appendStringLoop (s.length + 1) s).length < g) :
    unquoteTail g (appendStringLoop (s.length + 1) s ++ 0x22 :: X) = some (s, X) :=
  unquote_appendStringLoop X (s.length + 1) s g (s.length + 1) (by omega) hg hv


/-! ## `encoding/json`: the metadata -/

theorem isDigit_toNat (c : Char) (h : c.isDigit = true) : 0x30 ≤ c.toNat ∧ c.toNat ≤ 0x39 := by
  simp only [Char.isDigit, Bool.and_eq_true, decide_eq_true_eq, UInt32.le_def, Fin.le_def] at h
  exact h

theorem takeWhile_append_stop (p : Nat → Bool) (l r : List Nat) (y : Nat)
    (hl : ∀ x ∈ l, p x = true) (hy : p y = false) : (l ++ y :: r).takeWhile p = l := by
  induction l with
  | nil => simp [List.takeWhile, hy]
  | cons x xs ih =>
    have hx := hl x (List.mem_cons_self _ _)
    have := ih (fun z hz => hl z (List.mem_cons_of_mem _ hz))
    simp [List.takeWhile, hx, this]

/-- The JSON integer read from the decimal text of a non-negative `int64` is that number. -/
theorem readInt_toString (n : Nat) (hn : n < 2 ^ 63) (y : Nat) (X : List Nat)
    (hy : ¬ (0x30 ≤ y ∧ y ≤ 0x39)) :
    readInt (ascii (toString (n : Int)) ++ y :: X) = some ((n : Int), y :: X) := by
  have e : ascii (toString (n : Int)) = (Nat.toDigits 10 n).map Char.toNat := rfl
  obtain ⟨c, cs, h1, h2, h3⟩ := Discover.toDigits_head n
  have hdig : ∀ x ∈ (Nat.toDigits 10 n).map Char.toNat,
      (fun b : Nat => decide (0x30 ≤ b) && decide (b ≤ 0x39)) x = true := by
    intro x hx
    obtain ⟨d, hd, rfl⟩ := List.mem_map.1 hx
    have := isDigit_toNat d (Discover.toDigits_isDigit n d hd)
    simp [this.1, this.2]
  have hstop : (fun b : Nat => decide (0x30 ≤ b) && decide (b ≤ 0x39)) y = false := by
    simp only [Bool.and_eq_false_imp, decide_eq_true_eq, decide_eq_false_iff_not]
    intro a b
    exact hy ⟨a, b⟩
  have htw := takeWhile_append_stop _ _ X y hdig hstop
  have hval : ((Nat.toDigits 10 n).map Char.toNat).foldl (fun n b => n * 10 + (b - 0x30)) 0 = n := by
    rw [List.foldl_map]
    exact Discover.digitsValue_toDigits n
  have hc := isDigit_toNat c h2
  have hneg : ((Nat.toDigits 10 n).map Char.toNat ++ y :: X).head? ≠ some 0x2D := by
    rw [h1]
    simp only [List.map_cons, List.cons_append, List.head?_cons, ne_eq, Option.some.injEq]
    omega
  have hnil : (Nat.toDigits 10 n).map Char.toNat ≠ [] := by rw [h1]; simp
  have hzero : ¬ (((Nat.toDigits 10 n).map Char.toNat).head? = some 0x30 ∧
      ((Nat.toDigits 10 n).map Char.toNat).length ≠ 1) := by
    rintro ⟨a, b⟩
    rw [h1] at a b
    simp only [List.map_cons, List.head?_cons, Option.some.injEq] at a
    have hc0 : c = '0' := by
      have := Char.ofNat_toNat c
      rw [a] at this
      exact this.symm
    obtain ⟨-, rfl⟩ := h3 hc0
    exact b rfl
  unfold readInt
  rw [e]
  simp only [hneg, decide_False, Bool.false_eq_true, if_false, htw, hnil, hzero, false_or, hval,
    List.drop_left]
  have : ¬ ((n : Int) < - 2 ^ 63 ∨ (n : Int) > 2 ^ 63 - 1) := by
    have : (n : Int) < 2 ^ 63 := by exact_mod_cast hn
    omega
  rw [if_neg this]


theorem expect_append (p r : List Nat) : expect p (p ++ r) = some r := by
  simp [expect]

theorem marshalFile_eq (f : FileMetadata) (X : List Nat) :
    marshalFile f ++ X =
      ascii "\x7b\"path\":\"" ++ (appendStringLoop (f.Path.length + 1) f.Path ++
        0x22 :: (ascii ",\"size\":" ++ (ascii (toString f.Size) ++ 0x7D :: X))) := by
  have e1 : ascii "\x7b\"path\":\"" = ascii "\x7b\"path\":" ++ [0x22] := rfl
  have e2 : ascii "\x7d" = [0x7D] := rfl
  rw [marshalFile, appendString, e1, e2]
  simp only [List.append_assoc, List.cons_append, List.nil_append]

/-- The object `encoding/json` writes for an entry whose path is valid UTF-8 and whose size is
a non-negative `int64` is read back as that entry. -/
theorem readFile_marshalFile (f : FileMetadata) (X : List Nat) (hv : validUTF8 f.Path = true)
    (h0 : 0 ≤ f.Size) (h1 : f.Size < 2 ^ 63) : readFile (marshalFile f ++ X) = some (f, X) := by
  obtain ⟨n, hn⟩ := Int.eq_ofNat_of_zero_le h0
  have hn' : n < 2 ^ 63 := by rw [hn] at h1; exact_mod_cast h1
  rw [marshalFile_eq, readFile, expect_append]
  simp only
  rw [unquote_appendString f.Path _ _ hv (by simp; omega)]
  simp only
  rw [expect_append]
  simp only
  rw [hn, readInt_toString n hn' 0x7D X (by omega)]
  simp only
  have e2 : (0x7D :: X) = ascii "\x7d" ++ X := rfl
  rw [e2, expect_append]
  simp only
  cases f
  simp only at hn
  simp [hn]

theorem marshalFile_length (f : FileMetadata) : 1 ≤ (marshalFile f).length := by
  simp [marshalFile, ascii]

theorem intercalate_marshal (f : FileMetadata) (fs : List FileMetadata) :
    (ascii ",").intercalate ((f :: fs).map marshalFile) =
      marshalFile f ++ (fs.map (fun x => ascii "," ++ marshalFile x)).flatten := by
  induction fs generalizing f with
  | nil => simp [List.intercalate]
  | cons x xs ih =>
    have := ih x
    simp only [List.intercalate, List.map_cons, List.intersperse, List.flatten_cons] at this ⊢
    rw [this]
    simp

theorem readMore_entries : ∀ (fs : List FileMetadata) (g : Nat), fs.length < g →
    (∀ f ∈ fs, validUTF8 f.Path = true ∧ 0 ≤ f.Size ∧ f.Size < 2 ^ 63) →
    readMore g ((fs.map (fun x => ascii "," ++ marshalFile x)).flatten ++ ascii "]") = some fs := by
  intro fs
  induction fs with
  | nil =>
    intro g hg _
    obtain ⟨g, rfl⟩ : ∃ g', g = g' + 1 := ⟨g - 1, by simp at hg; omega⟩
    simp [readMore]
  | cons f fs ih =>
    intro g hg hfs
    obtain ⟨g, rfl⟩ : ∃ g', g = g' + 1 := ⟨g - 1, by simp at hg; omega⟩
    obtain ⟨a, b, c⟩ := hfs f (List.mem_cons_self _ _)
    have hne : (ascii "," ++ marshalFile f ++
        ((fs.map (fun x => ascii "," ++ marshalFile x)).flatten ++ ascii "]")) ≠ ascii "]" := by
      intro h
      have := congrArg List.head? h
      simp [ascii] at this
    simp only [List.map_cons, List.flatten_cons, List.append_assoc] at hne ⊢
    rw [readMore, if_neg hne, expect_append]
    simp only
    rw [readFile_marshalFile f _ a b c]
    simp only
    rw [ih g (by simp at hg; omega) (fun x hx => hfs x (List.mem_cons_of_mem _ hx))]
    rfl

theorem entries_length (fs : List FileMetadata) :
    fs.length < ((fs.map (fun x => ascii "," ++ marshalFile x)).flatten ++ ascii "]").length + 1 := by
  induction fs with
  | nil => simp
  | cons f fs ih =>
    simp only [List.map_cons, List.flatten_cons, List.length_append, List.length_cons] at ih ⊢
    have h1 : (ascii ",").length = 1 := rfl
    omega

/-- The metadata `json.Marshal` writes is read back as the same entries when every path is
valid UTF-8 and every size a non-negative `int64`. -/
theorem compactUnmarshal_jsonMarshal (ms : List FileMetadata)
    (h : ∀ f ∈ ms, validUTF8 f.Path = true ∧ 0 ≤ f.Size ∧ f.Size < 2 ^ 63) :
    compactUnmarshal (jsonMarshal ms) = some ms := by
  rcases ms with _ | ⟨f, fs⟩
  · rfl
  obtain ⟨a, b, c⟩ := h f (List.mem_cons_self _ _)
  rw [jsonMarshal, intercalate_marshal]
  have e := marshalFile_eq f ((fs.map (fun x => ascii "," ++ marshalFile x)).flatten ++ ascii "]")
  have hne : ¬ (ascii "[" ++ (marshalFile f ++ (fs.map (fun x => ascii "," ++ marshalFile x)).flatten) ++
      ascii "]" = ascii "null" ∨
      ascii "[" ++ (marshalFile f ++ (fs.map (fun x => ascii "," ++ marshalFile x)).flatten) ++
      ascii "]" = ascii "[]") := by
    rw [List.append_assoc, List.append_assoc, e]
    rintro (h | h)
    · have := congrArg List.head? h
      simp [ascii] at this
    · have := congrArg (fun l => l.tail.head?) h
      simp [ascii] at this
  rw [compactUnmarshal, if_neg hne]
  simp only [List.append_assoc]
  rw [expect_append]
  simp only
  rw [readFile_marshalFile f _ a b c]
  simp only
  rw [readMore_entries fs _ (entries_length fs) (fun x hx => h x (List.mem_cons_of_mem _ hx))]
  rfl


/-! ## Packing and unpacking: the round trip -/

/-- C10, as amended: for every ordered list of files in which each recorded size (an `int64`) is
the length of the content, whose JSON metadata is shorter than `2 ^ 32` bytes and in which every
path is valid UTF-8, the blob `packDirectory` writes is the metadata length in 4 little-endian
bytes, the metadata `json.Marshal` writes, the four bytes `FF FF FF FF`, and the contents in
metadata order; the metadata is read back as the same list of `{path,size}` entries;
`unpackCluster` accepts the blob, writes the same paths with the same contents in the same
order, and leaves nothing of the blob unread. And for every blob made of a length, metadata of
that length which `json.Unmarshal` decodes, and four bytes that are not all `FF`, whatever
follows, `unpackCluster` returns the error "invalid separator". -/
theorem pack_unpack_roundtrip (dir : List DirFile)
    (hsize : ∀ f ∈ dir, f.Size = f.Content.length)
    (hint64 : ∀ f ∈ dir, f.Size < 2 ^ 63)
    (hlen : (jsonMarshal (dir.map metadataOf)).length < 2 ^ 32)
    (hutf8 : ∀ f ∈ dir, validUTF8 f.Path = true) :
    packDirectory jsonMarshal dir =
      putUint32 (jsonMarshal (dir.map metadataOf)).length ++ jsonMarshal (dir.map metadataOf) ++
        [0xFF, 0xFF, 0xFF, 0xFF] ++ (dir.map (fun f => f.Content)).flatten ∧
    compactUnmarshal (jsonMarshal (dir.map metadataOf)) = some (dir.map metadataOf) ∧
    unpackCluster compactUnmarshal (packDirectory jsonMarshal dir) =
      .ok (dir.map (fun f => (f.Path, f.Content)), []) ∧
    (∀ (unmarshal : List Nat → Option (List FileMetadata)) (metadata : List Nat)
      (files : List FileMetadata) (s0 s1 s2 s3 : Nat) (tail : List Nat),
      metadata.length < 2 ^ 32 → unmarshal metadata = some files →
      s0 < 256 → s1 < 256 → s2 < 256 → s3 < 256 →
      [s0, s1, s2, s3] ≠ [0xFF, 0xFF, 0xFF, 0xFF] →
      unpackCluster unmarshal (putUint32 metadata.length ++ metadata ++ [s0, s1, s2, s3] ++ tail) =
        .error (.invalidSeparator (s0 + s1 * 256 + s2 * 65536 + s3 * 16777216))) := by
  have hsep : SEPARATOR < 2 ^ 32 := by decide
  have h1 : ∀ m rest : List Nat, ¬ (m ++ rest).length < m.length := by intro m rest; simp
  have hjson : compactUnmarshal (jsonMarshal (dir.map metadataOf)) = some (dir.map metadataOf) := by
    apply compactUnmarshal_jsonMarshal
    intro m hm
    obtain ⟨f, hf, rfl⟩ := List.mem_map.1 hm
    refine ⟨hutf8 f hf, ?_, hint64 f hf⟩
    show 0 ≤ f.Size
    rw [hsize f hf]
    exact Int.natCast_nonneg _
  refine ⟨?_, hjson, ?_, ?_⟩
  · rw [packDirectory_metadata, Nat.mod_eq_of_lt hlen]
    rfl
  · simp only [unpackCluster, packDirectory_metadata, Nat.mod_eq_of_lt hlen, List.append_assoc,
      readUint32_putUint32 _ _ hlen]
    simp only [h1, if_false, List.take_left, List.drop_left, hjson,
      readUint32_putUint32 _ _ hsep]
    have := extract_contents dir [] hsize
    simpa using this
  · intro unmarshal metadata files s0 s1 s2 s3 tail hm hdec h0 h1' h2 h3 hne
    have hv : s0 + s1 * 256 + s2 * 65536 + s3 * 16777216 ≠ SEPARATOR := by
      intro h
      apply hne
      simp only [SEPARATOR] at h
      have e0 : s0 = 255 := by omega
      have e1 : s1 = 255 := by omega
      have e2 : s2 = 255 := by omega
      have e3 : s3 = 255 := by omega
      rw [e0, e1, e2, e3]
    simp only [unpackCluster, List.append_assoc, readUint32_putUint32 _ _ hm]
    simp only [h1, if_false, List.take_left, List.drop_left, hdec]
    simp [readUint32, hv]

/-- C10 as stated fails for a path that is not valid UTF-8: `json.Marshal` writes the byte
`FF` as U+FFFD, so the file named `FF` is packed with 25 bytes of metadata that name it
`EF BF BD`, and it is unpacked under that name; the files named `FF` and `FE` give the same
blob, so that no decoder restores both. And a blob whose metadata `json.Unmarshal` rejects is
refused with the error of the decoder, not with "invalid separator", whatever the four bytes
after the metadata are. -/
theorem pack_loses_invalid_utf8_paths :
    validUTF8 [0xFF] = false ∧
    packDirectory jsonMarshal [{ Path := [0xFF], Size := 0, Content := [] }] =
      [25, 0, 0, 0] ++ ascii "[\x7b\"path\":\"" ++ [0xEF, 0xBF, 0xBD] ++ ascii "\",\"size\":0\x7d]" ++
        [0xFF, 0xFF, 0xFF, 0xFF] ∧
    unpackCluster compactUnmarshal
        (packDirectory jsonMarshal [{ Path := [0xFF], Size := 0, Content := [] }]) =
      .ok ([([0xEF, 0xBF, 0xBD], [])], []) ∧
    packDirectory jsonMarshal [{ Path := [0xFF], Size := 0, Content := [] }] =
      packDirectory jsonMarshal [{ Path := [0xFE], Size := 0, Content := [] }] ∧
    (¬ ∃ unmarshal : List Nat → Option (List FileMetadata),
      unpackCluster unmarshal
          (packDirectory jsonMarshal [{ Path := [0xFF], Size := 0, Content := [] }]) =
        .ok ([([0xFF], [])], []) ∧
      unpackCluster unmarshal
          (packDirectory jsonMarshal [{ Path := [0xFE], Size := 0, Content := [] }]) =
        .ok ([([0xFE], [])], [])) ∧
    (∀ unmarshal : List Nat → Option (List FileMetadata), unmarshal (ascii "x") = none →
      unpackCluster unmarshal (putUint32 1 ++ ascii "x" ++ [0, 0, 0, 0]) = .error .json) := by
  have heq : packDirectory jsonMarshal [{ Path := [0xFF], Size := 0, Content := [] }] =
      packDirectory jsonMarshal [{ Path := [0xFE], Size := 0, Content := [] }] := by decide!
  refine ⟨by decide, by decide!, by rfl, heq, ?_, ?_⟩
  · rintro ⟨unmarshal, h1, h2⟩
    rw [heq, h2] at h1
    simp at h1
  · intro unmarshal h
    have e : putUint32 1 ++ ascii "x" ++ [0, 0, 0, 0] = [1, 0, 0, 0, 0x78, 0, 0, 0, 0] := by decide
    have e2 : ascii "x" = [0x78] := by decide
    rw [e2] at h
    simp [e, unpackCluster, readUint32, h]

/-- C10, as amended, on a directory of three files in walk order, one name holding `<` and
`>`, one in a subdirectory and empty, one with a name that is not ASCII: the four hypotheses
hold, the metadata holds the escapes of `<` and `>` and the two bytes of `é` as they are, the
files come back, and the blob with `FE` for the first byte of the separator is refused. -/
theorem pack_unpack_exampleDir :
    (∀ f ∈ exampleDir, f.Size = f.Content.length) ∧
    (∀ f ∈ exampleDir, f.Size < 2 ^ 63) ∧
    (jsonMarshal (exampleDir.map metadataOf)).length < 2 ^ 32 ∧
    (∀ f ∈ exampleDir, validUTF8 f.Path = true) ∧
    jsonMarshal (exampleDir.map metadataOf) =
      ascii "[\x7b\"path\":\"a\\u003cb\\u003e.txt\",\"size\":3\x7d,\x7b\"path\":\"d/b\",\"size\":0\x7d,\x7b\"path\":\"" ++
        [0xC3, 0xA9] ++ ascii ".txt\",\"size\":2\x7d]" ∧
    unpackCluster compactUnmarshal (packDirectory jsonMarshal exampleDir) =
      .ok ([(ascii "a<b>.txt", [1, 2, 3]), (ascii "d/b", []),
        ([0xC3, 0xA9] ++ ascii ".txt", [9, 9])], []) ∧
    unpackCluster compactUnmarshal
        (putUint32 (jsonMarshal (exampleDir.map metadataOf)).length ++
          jsonMarshal (exampleDir.map metadataOf) ++ [0xFE, 0xFF, 0xFF, 0xFF] ++ [1, 2, 3, 9, 9]) =
      .error (.invalidSeparator 0xFFFFFFFE) := by
  have h1 : ∀ f ∈ exampleDir, f.Size = f.Content.length := by decide
  have h2 : ∀ f ∈ exampleDir, f.Size < 2 ^ 63 := by decide
  have h3 : (jsonMarshal (exampleDir.map metadataOf)).length < 2 ^ 32 := by decide!
  have h4 : ∀ f ∈ exampleDir, validUTF8 f.Path = true := by decide!
  have h5 : jsonMarshal (exampleDir.map metadataOf) =
      ascii "[\x7b\"path\":\"a\\u003cb\\u003e.txt\",\"size\":3\x7d,\x7b\"path\":\"d/b\",\"size\":0\x7d,\x7b\"path\":\"" ++
        [0xC3, 0xA9] ++ ascii ".txt\",\"size\":2\x7d]" := by decide!
  obtain ⟨-, g2, g3, g4⟩ := pack_unpack_roundtrip exampleDir h1 h2 h3 h4
  exact ⟨h1, h2, h3, h4, h5, g3,
    g4 compactUnmarshal _ _ 0xFE 0xFF 0xFF 0xFF [1, 2, 3, 9, 9] h3 g2 (by decide) (by decide)
      (by decide) (by decide) (by decide)⟩

end Cluster
